import Mathlib

/-
Verification development for the crev-wot in-memory proof database
(crev-wot/src/lib.rs): a shallow embedding of the proof store, the
web-of-trust traversal and the issue/advisory resolution, together with
theorems about the behaviour of those operations.

Modelling conventions:
  * Rust HashMap / BTreeMap values become association lists
    (List (key × value)); lookups read the first matching key.  The nested
    BTreeMap Source → Name → Version → set of review ids becomes a flat
    association list keyed by (Source, Name, Version); the ordered range
    queries become filters over the version component.
  * chrono DateTime timestamps become Nat (only their total order is used).
  * crev_data value types that live outside this crate (Id, Url, Version,
    TrustLevel, proof contents) are modelled from the specification of the
    crate, which only relies on their equality and ordering behaviour.
  * The lazily recomputed derived_alternatives cache and its reader/writer
    lock are concurrency plumbing and are not modelled; the raw
    package_alternatives index that feeds it is.
  * Rust struct fields named from become from_ (from is reserved in Lean).
-/

set_option autoImplicit false

namespace CrevWot

/-! ### Association list helpers (model of HashMap / BTreeMap) -/

variable {κ : Type} {α : Type}

/-- First-match lookup in an association list, as HashMap::get. -/
def lookupA [DecidableEq κ] : List (κ × α) → κ → Option α
  | [], _ => Option.none
  | (k, v) :: rest, key => if k = key then some v else lookupA rest key

/-- Replace the value at the first occurrence of a key, appending the pair
when the key is absent (HashMap::insert on maps with unique keys). -/
def setA [DecidableEq κ] : List (κ × α) → κ → α → List (κ × α)
  | [], key, v => [(key, v)]
  | (k, w) :: rest, key, v =>
    if k = key then (k, v) :: rest else (k, w) :: setA rest key v

/-- The entry-API pattern map.entry(key).and_modify(f).or_insert(ins). -/
def upsertA [DecidableEq κ] : List (κ × α) → κ → (α → α) → α → List (κ × α)
  | [], key, _, ins => [(key, ins)]
  | (k, w) :: rest, key, f, ins =>
    if k = key then (k, f w) :: rest else (k, w) :: upsertA rest key f ins

/-- Remove every entry with the given key (HashMap::remove; on maps with
unique keys this removes exactly the one entry). -/
def eraseA [DecidableEq κ] (l : List (κ × α)) (key : κ) : List (κ × α) :=
  l.filter (fun p => p.1 ≠ key)

/-- HashSet::insert: add an element unless it is already present. -/
def insertOnce [DecidableEq α] (a : α) (l : List α) : List α :=
  if a ∈ l then l else a :: l

/-! ### Core value types

Id, Url, Version and the timestamp are external value types
(crev_data / chrono / semver); only their equality and total order are used
by this crate, so they are modelled as Nat / String / Nat triples. -/

abbrev Id := Nat
abbrev Url := String
abbrev Signature := String
abbrev Digest := String
abbrev Source := String
abbrev Name := String

/-- Modelled from the spec: semver Version, compared lexicographically. -/
structure SemVer where
  major : Nat
  minor : Nat
  patch : Nat
  deriving DecidableEq, Repr

def semverLe (a b : SemVer) : Bool :=
  Nat.blt a.major b.major ||
    (a.major == b.major &&
      (Nat.blt a.minor b.minor ||
        (a.minor == b.minor && Nat.ble a.patch b.patch)))

def semverLt (a b : SemVer) : Bool := semverLe a b && a != b

/-- A T with a timestamp (struct Timestamped<T> in crev-wot). -/
structure Timestamped (α : Type) where
  date : Nat
  value : α
  deriving DecidableEq, Repr

/-- Timestamped::update_to_more_recent: overwrite both fields with the other
value whenever self.date <= other.date (ties overwrite deliberately). -/
def Timestamped.update_to_more_recent {α : Type} (t other : Timestamped α) :
    Timestamped α :=
  if t.date ≤ other.date then { date := other.date, value := other.value } else t

/-- TrustLevel (crev_data::proof::trust::TrustLevel).
Modelled from the spec: an enum with the total order
Distrust < None < Low < Medium < High. -/
inductive TrustLevel where
  | distrust
  | none
  | low
  | medium
  | high
  deriving DecidableEq, Repr

/-- Numeric rank realising the total order on TrustLevel. -/
def TrustLevel.toNat : TrustLevel → Nat
  | .distrust => 0
  | .none => 1
  | .low => 2
  | .medium => 3
  | .high => 4

instance : LE TrustLevel := ⟨fun a b => a.toNat ≤ b.toNat⟩

instance : LT TrustLevel := ⟨fun a b => a.toNat < b.toNat⟩

instance (a b : TrustLevel) : Decidable (a ≤ b) :=
  inferInstanceAs (Decidable (a.toNat ≤ b.toNat))

instance (a b : TrustLevel) : Decidable (a < b) :=
  inferInstanceAs (Decidable (a.toNat < b.toNat))

/-- std::cmp::min on TrustLevel via its Ord instance. -/
def tlMin (a b : TrustLevel) : TrustLevel := if a ≤ b then a else b

/-- crev_data::PublicId: an Id together with its self-claimed URL. -/
structure PublicId where
  id : Id
  url : Option Url
  deriving DecidableEq, Repr

/-- crev_data::proof::PackageId = { source, name }. -/
structure PackageId where
  source : Source
  name : Name
  deriving DecidableEq, Repr

/-- crev_data::proof::PackageVersionId = { PackageId, Version }. -/
structure PackageVersionId where
  id : PackageId
  version : SemVer
  deriving DecidableEq, Repr

/-- crev_data package info carried by a package review: id and digest. -/
structure PackageInfo where
  id : PackageVersionId
  digest : Digest
  deriving DecidableEq, Repr

/-- Modelled from the spec: an Issue names a problem and carries an affects
predicate, a total function of two versions
(Issue::is_for_version_when_reported_in_version(queried, reported_in)). -/
structure Issue where
  id : String
  applies : SemVer → SemVer → Bool

/-- Modelled from the spec: an Advisory lists fixed issue ids and carries an
affects predicate, a total function of two versions
(Advisory::is_for_version_when_reported_in_version(queried, reported_in)). -/
structure Advisory where
  ids : List String
  applies : SemVer → SemVer → Bool

/-- review::Package (the parts of a package review this crate reads).
The review assessment itself and the flags bag are treated as abstract
values; severity levels are abstract Nat ranks. -/
structure PackageReview where
  from_ : PublicId
  date : Nat
  package : PackageInfo
  review : Nat
  flags : Nat
  alternatives : List PackageId
  issues : List Issue
  advisories : List Advisory

/-- review::Code (only its author and date are used by ingestion). -/
structure CodeReview where
  from_ : PublicId
  date : Nat
  files : List String
  deriving DecidableEq, Repr

/-- proof::Trust: a multi-subject trust statement. -/
structure TrustProof where
  from_ : PublicId
  date : Nat
  trust : TrustLevel
  ids : List PublicId
  deriving DecidableEq, Repr

/-- Unique package review id: author + package version. -/
structure PkgVersionReviewId where
  from_ : Id
  package_version_id : PackageVersionId
  deriving DecidableEq, Repr

def PkgVersionReviewId.ofReview (review : PackageReview) : PkgVersionReviewId :=
  { from_ := review.from_.id, package_version_id := review.package.id }

abbrev TimestampedUrl := Timestamped Url
abbrev TimestampedTrustLevel := Timestamped TrustLevel
abbrev TimestampedSignature := Timestamped Signature
abbrev TimestampedFlags := Timestamped Nat

/-- Where a proof has been fetched from. -/
inductive FetchSource where
  | url (u : Url)
  | localUser
  deriving DecidableEq, Repr

/-- crev-wot Error: unknown proof type, or a data error surfaced from the
crev_data collaborator (content parsing). -/
inductive Error where
  | unknownProofType (tag : String)
  | data (msg : String)
  deriving DecidableEq, Repr

/-- Content of a signed proof envelope. -/
inductive ProofContent where
  | codeReview (r : CodeReview)
  | packageReview (r : PackageReview)
  | trust (t : TrustProof)

/-- proof::Proof: a signed envelope with a kind tag, content and signature.
Cryptographic verification is a precondition handled by the collaborator. -/
structure Proof where
  kind : String
  content : ProofContent
  signature : Signature

/-- Modelled from the spec: the kind tag of code review proofs. -/
def CodeReview.KIND : String := "code review"

/-- Modelled from the spec: the kind tag of package review proofs. -/
def PackageReview.KIND : String := "package review"

/-- Modelled from the spec: the kind tag of trust proofs. -/
def TrustProof.KIND : String := "trust"

/-- proof.parse_content::<review::Code>() -/
def parse_code_review : ProofContent → Except Error CodeReview
  | .codeReview r => .ok r
  | _ => .error (.data "content does not parse as a code review")

/-- proof.parse_content::<review::Package>() -/
def parse_package_review : ProofContent → Except Error PackageReview
  | .packageReview r => .ok r
  | _ => .error (.data "content does not parse as a package review")

/-- proof.parse_content::<proof::Trust>() -/
def parse_trust : ProofContent → Except Error TrustProof
  | .trust t => .ok t
  | _ => .error (.data "content does not parse as a trust proof")

/-! ### TrustSet -/

/-- Details of one trusted Id. -/
structure TrustedIdDetails where
  distance : Nat
  effective_trust_level : TrustLevel
  reported_by : List (Id × TrustLevel)
  deriving DecidableEq, Repr

/-- Details of one distrusted Id. -/
structure DistrustedIdDetails where
  reported_by : List Id
  deriving DecidableEq, Repr

structure TrustSet where
  trusted : List (Id × TrustedIdDetails)
  distrusted : List (Id × DistrustedIdDetails)
  deriving DecidableEq, Repr

def TrustSet.is_trusted (ts : TrustSet) (id : Id) : Bool :=
  (lookupA ts.trusted id).isSome

def TrustSet.is_distrusted (ts : TrustSet) (id : Id) : Bool :=
  (lookupA ts.distrusted id).isSome

/-- TrustSet::record_distrusted_id: move an Id to the distrusted map,
returning whether it had been considered trusted before. -/
def TrustSet.record_distrusted_id (ts : TrustSet) (subject reported_by : Id) :
    Bool × TrustSet :=
  ((lookupA ts.trusted subject).isSome,
   { trusted := eraseA ts.trusted subject,
     distrusted := upsertA ts.distrusted subject
       (fun d => { reported_by := insertOnce reported_by d.reported_by })
       { reported_by := insertOnce reported_by [] } })

/-- TrustSet::record_trusted_id: merge a trusted Id observation, keeping the
minimum distance, the maximum effective trust level and upgrading the
per-reporter level; returns whether anything changed. -/
def TrustSet.record_trusted_id (ts : TrustSet) (subject reported_by : Id)
    (distance : Nat) (effective_trust_level : TrustLevel) : Bool × TrustSet :=
  match lookupA ts.trusted subject with
  | Option.none =>
    (true, { ts with trusted := (setA ts.trusted subject
      { distance, effective_trust_level,
        reported_by := [(reported_by, effective_trust_level)] }) })
  | some details =>
    let d1 := if details.distance > distance then (true, distance)
      else (false, details.distance)
    let d2 := if details.effective_trust_level < effective_trust_level
      then (true, effective_trust_level)
      else (false, details.effective_trust_level)
    let d3 := match lookupA details.reported_by reported_by with
      | Option.none =>
        (true, setA details.reported_by reported_by effective_trust_level)
      | some level =>
        if level < effective_trust_level
        then (true, setA details.reported_by reported_by effective_trust_level)
        else (false, details.reported_by)
    (d1.1 || d2.1 || d3.1,
     { ts with trusted := (setA ts.trusted subject
       { distance := d1.2, effective_trust_level := d2.2,
         reported_by := d3.2 }) })

def TrustSet.get_effective_trust_level_opt (ts : TrustSet) (id : Id) :
    Option TrustLevel :=
  match lookupA ts.trusted id with
  | some details => some details.effective_trust_level
  | Option.none =>
    match lookupA ts.distrusted id with
    | some _ => some TrustLevel.distrust
    | Option.none => Option.none

def TrustSet.get_effective_trust_level (ts : TrustSet) (id : Id) : TrustLevel :=
  (ts.get_effective_trust_level_opt id).getD TrustLevel.none

/-- Parameters translating trust levels into graph distances. -/
structure TrustDistanceParams where
  max_distance : Nat
  high_trust_distance : Nat
  medium_trust_distance : Nat
  low_trust_distance : Nat

def TrustDistanceParams.distance_by_level (params : TrustDistanceParams) :
    TrustLevel → Option Nat
  | .distrust => Option.none
  | .none => Option.none
  | .low => some params.low_trust_distance
  | .medium => some params.medium_trust_distance
  | .high => some params.high_trust_distance

/-- The Default instance for TrustDistanceParams. -/
def TrustDistanceParams.default_params : TrustDistanceParams :=
  { max_distance := 10, high_trust_distance := 0,
    medium_trust_distance := 1, low_trust_distance := 5 }

/-- TrustDistanceParams::new_no_wot. -/
def TrustDistanceParams.new_no_wot : TrustDistanceParams :=
  { max_distance := 0, high_trust_distance := 1,
    medium_trust_distance := 1, low_trust_distance := 1 }

/-! ### The proof database -/

/-- In-memory database tracking information from proofs. -/
structure ProofDB where
  trust_id_to_id : List (Id × List (Id × TimestampedTrustLevel))
  url_by_id_self_reported : List (Id × (TimestampedUrl × Bool))
  url_by_id_reported_by_others : List (Id × TimestampedUrl)
  package_review_by_signature : List (Signature × PackageReview)
  package_review_signatures_by_package_digest :
    List (Digest × List (PkgVersionReviewId × TimestampedSignature))
  package_review_signatures_by_pkg_review_id :
    List (PkgVersionReviewId × TimestampedSignature)
  package_reviews : List ((Source × Name × SemVer) × List PkgVersionReviewId)
  package_alternatives : List (PackageId × List (Id × TimestampedSignature))
  package_flags : List (PackageId × List (Id × TimestampedFlags))
  insertion_counter : Nat

/-- ProofDB::new (the Default instance: every index empty). -/
def ProofDB.new : ProofDB :=
  { trust_id_to_id := [], url_by_id_self_reported := [],
    url_by_id_reported_by_others := [], package_review_by_signature := [],
    package_review_signatures_by_package_digest := [],
    package_review_signatures_by_pkg_review_id := [],
    package_reviews := [], package_alternatives := [], package_flags := [],
    insertion_counter := 0 }

/-- Record an untrusted mapping between a PublicId and a URL it declares
(from the to-list of a trust proof); only the first observation is kept
(entry().or_insert_with). -/
def ProofDB.record_url_from_to_field (db : ProofDB) (date : Nat)
    (to_ : PublicId) : ProofDB :=
  match to_.url with
  | some url =>
    { db with url_by_id_reported_by_others :=
        (upsertA db.url_by_id_reported_by_others to_.id (fun e => e)
          { date, value := url }) }
  | Option.none => db

/-- Record a mapping between a PublicId and a URL it declares in the from
field, trusted as verified only when fetched from that same URL or from the
local user's own repo; an already-set verified flag is never cleared. -/
def ProofDB.record_url_from_from_field (db : ProofDB) (date : Nat)
    (from_ : PublicId) (fetched_from : FetchSource) : ProofDB :=
  match from_.url with
  | Option.none => db
  | some url =>
    let tu : TimestampedUrl := { date, value := url }
    let fetch_matches :=
      match fetched_from with
      | .localUser => true
      | .url fetched_url => fetched_url == url
    { db with url_by_id_self_reported :=
        (upsertA db.url_by_id_self_reported from_.id
          (fun e => (e.1.update_to_more_recent tu, e.2 || fetch_matches))
          (tu, fetch_matches)) }

/-- ProofDB::add_trust_raw: merge one directed trust edge by timestamp. -/
def ProofDB.add_trust_raw (db : ProofDB) (from_ to_ : Id) (date : Nat)
    (trust : TrustLevel) : ProofDB :=
  let tl : TimestampedTrustLevel := { date, value := trust }
  { db with trust_id_to_id :=
      (upsertA db.trust_id_to_id from_
        (fun m => upsertA m to_ (fun e => e.update_to_more_recent tl) tl)
        (upsertA [] to_ (fun e => e.update_to_more_recent tl) tl)) }

/-- ProofDB::add_trust: record the author URL, each directed edge, and each
subject URL as reported-by-others. -/
def ProofDB.add_trust (db : ProofDB) (trust : TrustProof)
    (fetched_from : FetchSource) : ProofDB :=
  let db := db.record_url_from_from_field trust.date trust.from_ fetched_from
  let db := trust.ids.foldl
    (fun d to_ => d.add_trust_raw trust.from_.id to_.id trust.date trust.trust) db
  trust.ids.foldl (fun d to_ => d.record_url_from_to_field trust.date to_) db

/-- ProofDB::add_code_review: record the author URL; file-level indexing is
not implemented. -/
def ProofDB.add_code_review (db : ProofDB) (review : CodeReview)
    (fetched_from : FetchSource) : ProofDB :=
  db.record_url_from_from_field review.date review.from_ fetched_from

/-- ProofDB::add_package_review: bump the insertion counter, record the
author URL and merge the review into every index by timestamp. -/
def ProofDB.add_package_review (db : ProofDB) (review : PackageReview)
    (signature : Signature) (fetched_from : FetchSource) : ProofDB :=
  let db := { db with insertion_counter := db.insertion_counter + 1 }
  let db := db.record_url_from_from_field review.date review.from_ fetched_from
  let pkg_review_id := PkgVersionReviewId.ofReview review
  let timestamp_signature : TimestampedSignature :=
    { date := review.date, value := signature }
  let timestamp_flags : TimestampedFlags :=
    { date := review.date, value := review.flags }
  { db with
    package_review_by_signature :=
      (upsertA db.package_review_by_signature signature (fun r => r) review),
    package_review_signatures_by_package_digest :=
      (upsertA db.package_review_signatures_by_package_digest
        review.package.digest
        (fun m => upsertA m pkg_review_id
          (fun s => s.update_to_more_recent timestamp_signature)
          timestamp_signature)
        (upsertA [] pkg_review_id
          (fun s => s.update_to_more_recent timestamp_signature)
          timestamp_signature)),
    package_review_signatures_by_pkg_review_id :=
      (upsertA db.package_review_signatures_by_pkg_review_id pkg_review_id
        (fun s => s.update_to_more_recent timestamp_signature)
        timestamp_signature),
    package_reviews :=
      (upsertA db.package_reviews
        (review.package.id.id.source, review.package.id.id.name,
         review.package.id.version)
        (fun s => insertOnce pkg_review_id s) [pkg_review_id]),
    package_alternatives :=
      (upsertA db.package_alternatives review.package.id.id
        (fun m => upsertA m review.from_.id
          (fun a => a.update_to_more_recent timestamp_signature)
          timestamp_signature)
        (upsertA [] review.from_.id
          (fun a => a.update_to_more_recent timestamp_signature)
          timestamp_signature)),
    package_flags :=
      (upsertA db.package_flags review.package.id.id
        (fun m => upsertA m review.from_.id
          (fun f => f.update_to_more_recent timestamp_flags) timestamp_flags)
        (upsertA [] review.from_.id
          (fun f => f.update_to_more_recent timestamp_flags)
          timestamp_flags)) }

/-- ProofDB::add_proof: dispatch on the proof kind; unrecognized kinds fail
with UnknownProofType.  The proof is assumed already cryptographically
verified (precondition enforced by the caller). -/
def ProofDB.add_proof (db : ProofDB) (proof : Proof)
    (fetched_from : FetchSource) : Except Error ProofDB :=
  if proof.kind = CodeReview.KIND then
    (parse_code_review proof.content).map
      (fun r => db.add_code_review r fetched_from)
  else if proof.kind = PackageReview.KIND then
    (parse_package_review proof.content).map
      (fun r => db.add_package_review r proof.signature fetched_from)
  else if proof.kind = TrustProof.KIND then
    (parse_trust proof.content).map (fun t => db.add_trust t fetched_from)
  else .error (.unknownProofType proof.kind)

/-- ProofDB::import_from_iter: ingest a stream of proofs, skipping (not
aborting on) per-proof failures. -/
def ProofDB.import_from_iter (db : ProofDB)
    (proofs : List (Proof × FetchSource)) : ProofDB :=
  proofs.foldl
    (fun d pf =>
      match d.add_proof pf.1 pf.2 with
      | .ok d' => d'
      | .error _ => d) db

def ProofDB.unique_package_review_proof_count (db : ProofDB) : Nat :=
  db.package_review_signatures_by_pkg_review_id.length

/-- ProofDB::unique_trust_proof_count: fold of the sizes of the per-author
edge maps. -/
def ProofDB.unique_trust_proof_count (db : ProofDB) : Nat :=
  db.trust_id_to_id.foldl (fun count p => count + p.2.length) 0

/-! ### Review queries -/

def ProofDB.get_pkg_review_by_pkg_review_id (db : ProofDB)
    (uniq : PkgVersionReviewId) : Option PackageReview :=
  (lookupA db.package_review_signatures_by_pkg_review_id uniq).bind
    (fun signature => lookupA db.package_review_by_signature signature.value)

def ProofDB.get_pkg_reviews_for_source (db : ProofDB) (source : Source) :
    List PackageReview :=
  ((db.package_reviews.filter (fun e => e.1.1 == source)).flatMap
    (fun e => e.2)).filterMap db.get_pkg_review_by_pkg_review_id

def ProofDB.get_pkg_reviews_for_name (db : ProofDB) (source : Source)
    (name : Name) : List PackageReview :=
  ((db.package_reviews.filter
      (fun e => e.1.1 == source && e.1.2.1 == name)).flatMap
    (fun e => e.2)).filterMap db.get_pkg_review_by_pkg_review_id

def ProofDB.get_pkg_reviews_for_version (db : ProofDB) (source : Source)
    (name : Name) (version : SemVer) : List PackageReview :=
  ((db.package_reviews.filter
      (fun e => e.1.1 == source && e.1.2.1 == name && e.1.2.2 == version)).flatMap
    (fun e => e.2)).filterMap db.get_pkg_review_by_pkg_review_id

/-- BTreeMap range(version..) over the version-ordered review index. -/
def ProofDB.get_pkg_reviews_gte_version (db : ProofDB) (source : Source)
    (name : Name) (version : SemVer) : List PackageReview :=
  ((db.package_reviews.filter
      (fun e => e.1.1 == source && e.1.2.1 == name && semverLe version e.1.2.2)).flatMap
    (fun e => e.2)).filterMap db.get_pkg_review_by_pkg_review_id

/-- BTreeMap range(..=version) over the version-ordered review index. -/
def ProofDB.get_pkg_reviews_lte_version (db : ProofDB) (source : Source)
    (name : Name) (version : SemVer) : List PackageReview :=
  ((db.package_reviews.filter
      (fun e => e.1.1 == source && e.1.2.1 == name && semverLe e.1.2.2 version)).flatMap
    (fun e => e.2)).filterMap db.get_pkg_review_by_pkg_review_id

/-- review.is_advisory_for(version): some advisory of the review affects the
given version (modelled from the spec; provided by crev_data). -/
def PackageReview.is_advisory_for (review : PackageReview)
    (version : SemVer) : Bool :=
  review.advisories.any
    (fun advisory => advisory.applies version review.package.id.version)

def ProofDB.get_advisories_for_version (db : ProofDB) (source : Source)
    (name : Name) (version : SemVer) : List PackageReview :=
  (db.get_pkg_reviews_gte_version source name version).filter
    (fun review => review.is_advisory_for version)

def ProofDB.get_advisories_for_package (db : ProofDB) (source : Source)
    (name : Name) : List PackageReview :=
  (db.get_pkg_reviews_for_name source name).filter
    (fun review => !review.advisories.isEmpty)

def ProofDB.get_advisories_for_source (db : ProofDB) (source : Source) :
    List PackageReview :=
  (db.get_pkg_reviews_for_source source).filter
    (fun review => !review.advisories.isEmpty)

/-- ProofDB::get_advisories: dispatch on the optional name and version; the
shape (name=None, version=Some) hits a panic in the source, modelled as
Option.none (every other shape produces a list). -/
def ProofDB.get_advisories (db : ProofDB) (source : Source)
    (name : Option Name) (version : Option SemVer) :
    Option (List PackageReview) :=
  match name, version with
  | some name, some version =>
    some (db.get_advisories_for_version source name version)
  | some name, Option.none => some (db.get_advisories_for_package source name)
  | Option.none, Option.none => some (db.get_advisories_for_source source)
  | Option.none, some _ => Option.none

/-- ProofDB::get_package_reviews_for_package: dispatch on the optional name
and version; the shape (name=None, version=Some) hits a panic in the
source, modelled as Option.none. -/
def ProofDB.get_package_reviews_for_package (db : ProofDB) (source : Source)
    (name : Option Name) (version : Option SemVer) :
    Option (List PackageReview) :=
  match name, version with
  | some name, some version =>
    some (db.get_pkg_reviews_for_version source name version)
  | some name, Option.none => some (db.get_pkg_reviews_for_name source name)
  | Option.none, Option.none => some (db.get_pkg_reviews_for_source source)
  | Option.none, some _ => Option.none

def ProofDB.get_pkg_reviews_with_issues_for_name (db : ProofDB)
    (source : Source) (name : Name) (trust_set : TrustSet)
    (trust_level_required : TrustLevel) : List PackageReview :=
  ((db.get_pkg_reviews_for_name source name).filter
    (fun review =>
      decide (trust_level_required ≤
        trust_set.get_effective_trust_level review.from_.id))).filter
    (fun review => !review.issues.isEmpty || !review.advisories.isEmpty)

def ProofDB.get_pkg_reviews_with_issues_for_version (db : ProofDB)
    (source : Source) (name : Name) (queried_version : SemVer)
    (trust_set : TrustSet) (trust_level_required : TrustLevel) :
    List PackageReview :=
  (db.get_pkg_reviews_with_issues_for_name source name trust_set
    trust_level_required).filter
    (fun review =>
      !review.issues.isEmpty ||
        review.advisories.any
          (fun advi => advi.applies queried_version review.package.id.version))

def ProofDB.get_pkg_reviews_with_issues_for_source (db : ProofDB)
    (source : Source) (trust_set : TrustSet)
    (trust_level_required : TrustLevel) : List PackageReview :=
  ((db.get_pkg_reviews_for_source source).filter
    (fun review =>
      decide (trust_level_required ≤
        trust_set.get_effective_trust_level review.from_.id))).filter
    (fun review => !review.issues.isEmpty || !review.advisories.isEmpty)

/-- ProofDB::get_pkg_reviews_with_issues_for: dispatch on the optional name
and version; the shape (name=None, version=Some) hits a panic in the
source, modelled as Option.none. -/
def ProofDB.get_pkg_reviews_with_issues_for (db : ProofDB) (source : Source)
    (name : Option Name) (version : Option SemVer) (trust_set : TrustSet)
    (trust_level_required : TrustLevel) : Option (List PackageReview) :=
  match name, version with
  | some name, some version =>
    some (db.get_pkg_reviews_with_issues_for_version source name version
      trust_set trust_level_required)
  | some name, Option.none =>
    some (db.get_pkg_reviews_with_issues_for_name source name trust_set
      trust_level_required)
  | Option.none, Option.none =>
    some (db.get_pkg_reviews_with_issues_for_source source trust_set
      trust_level_required)
  | Option.none, some _ => Option.none

/-- Per-issue detail accumulated by get_open_issues_for_version. -/
structure IssueDetails where
  severity : Nat
  issues : List PkgVersionReviewId
  advisories : List PkgVersionReviewId
  deriving DecidableEq, Repr

def IssueDetails.default : IssueDetails :=
  { severity := 0, issues := [], advisories := [] }

/-- ProofDB::get_open_issues_for_version: collect issue reports from reviews
at versions up to the queried one, then let advisories both report and
cancel issues; finally keep only issue ids with a non-empty report set. -/
def ProofDB.get_open_issues_for_version (db : ProofDB) (source : Source)
    (name : Name) (queried_version : SemVer) (trust_set : TrustSet)
    (trust_level_required : TrustLevel) : List (String × IssueDetails) :=
  let trusted_author := fun (review : PackageReview) =>
    decide (trust_level_required ≤
      trust_set.get_effective_trust_level review.from_.id)
  let issue_pairs :=
    (((db.get_pkg_reviews_lte_version source name queried_version).filter
        trusted_author).flatMap
      (fun review => review.issues.map (fun issue => (review, issue)))).filter
      (fun p => p.2.applies queried_version p.1.package.id.version)
  let reports0 : List (String × IssueDetails) :=
    issue_pairs.foldl
      (fun acc p =>
        upsertA acc p.2.id
          (fun det => { det with
            issues := insertOnce (PkgVersionReviewId.ofReview p.1) det.issues })
          { IssueDetails.default with
            issues := [PkgVersionReviewId.ofReview p.1] }) []
  let advisory_pairs :=
    ((db.get_pkg_reviews_for_name source name).filter trusted_author).flatMap
      (fun review => review.advisories.map (fun advisory => (review, advisory)))
  let reports1 :=
    advisory_pairs.foldl
      (fun acc p =>
        let review := p.1
        let advisory := p.2
        let acc :=
          if advisory.applies queried_version review.package.id.version then
            advisory.ids.foldl
              (fun a id =>
                upsertA a id
                  (fun det => { det with
                    issues := insertOnce (PkgVersionReviewId.ofReview review)
                      det.issues })
                  { IssueDetails.default with
                    issues := [PkgVersionReviewId.ofReview review] }) acc
          else acc
        advisory.ids.foldl
          (fun a id =>
            match lookupA a id with
            | Option.none => a
            | some marker =>
              setA a id
                { marker with issues := (marker.issues.filter
                    (fun pkg_review_id =>
                      match db.get_pkg_review_by_pkg_review_id pkg_review_id with
                      | some issue_review =>
                        !(advisory.applies issue_review.package.id.version
                          review.package.id.version)
                      | Option.none => true)) }) acc)
      reports0
  reports1.filter
    (fun e => !e.2.issues.isEmpty || !e.2.advisories.isEmpty)

/-! ### URL lookup -/

/-- Result of URL lookup, by decreasing reliability. -/
inductive UrlOfId where
  | fromSelfVerified (url : Url)
  | fromSelf (url : Url)
  | fromOthers (url : Url)
  | none
  deriving DecidableEq, Repr

/-- ProofDB::lookup_url: self-reported entries (verified or not) take
priority over entries reported by others. -/
def ProofDB.lookup_url (db : ProofDB) (id : Id) : UrlOfId :=
  match lookupA db.url_by_id_self_reported id with
  | some e => if e.2 then .fromSelfVerified e.1.value else .fromSelf e.1.value
  | Option.none =>
    match lookupA db.url_by_id_reported_by_others id with
    | some url => .fromOthers url.value
    | Option.none => .none

/-! ### Trust set calculation -/

/-- Node to be visited; the derived Ord is lexicographic on
(effective_trust_level, distance, id). -/
structure Visit where
  effective_trust_level : TrustLevel
  distance : Nat
  id : Id
  deriving DecidableEq, Repr

/-- The derived lexicographic order on Visit. -/
def visitLe (a b : Visit) : Bool :=
  Nat.blt a.effective_trust_level.toNat b.effective_trust_level.toNat ||
    (a.effective_trust_level == b.effective_trust_level &&
      (Nat.blt a.distance b.distance ||
        (a.distance == b.distance && Nat.ble a.id b.id)))

/-- BTreeSet: take (and remove) the least pending visit. -/
def popMin (pending : List Visit) : Option (Visit × List Visit) :=
  match pending with
  | [] => Option.none
  | v :: vs =>
    let m := vs.foldl (fun best w => if visitLe w best then w else best) v
    some (m, pending.erase m)

/-- ProofDB::get_trust_list_of_id: the outgoing edges of an Id with their
current trust levels. -/
def ProofDB.get_trust_list_of_id (db : ProofDB) (id : Id) :
    List (TrustLevel × Id) :=
  match lookupA db.trust_id_to_id id with
  | some map => map.map (fun p => (p.2.value, p.1))
  | Option.none => []

/-- One candidate edge of the WoT traversal: skip distrusted candidates,
band distrusted edges, otherwise merge the candidate into the trusted set
and push it for a visit if anything changed. -/
def trust_set_process_edge (params : TrustDistanceParams) (current : Visit)
    (st : TrustSet × List Visit) (edge : TrustLevel × Id) :
    TrustSet × List Visit :=
  let current_trust_set := st.1
  let pending := st.2
  let direct_trust := edge.1
  let candidate_id := edge.2
  if current_trust_set.is_distrusted candidate_id then st
  else if direct_trust = TrustLevel.distrust then
    ((current_trust_set.record_distrusted_id candidate_id current.id).2,
     pending)
  else
    let effective_trust_level := tlMin direct_trust current.effective_trust_level
    if effective_trust_level = TrustLevel.none then st
    else
      match params.distance_by_level effective_trust_level with
      | Option.none => st
      | some candidate_distance_from_current =>
        let candidate_total_distance :=
          current.distance + candidate_distance_from_current
        if candidate_total_distance > params.max_distance then st
        else
          let r := current_trust_set.record_trusted_id candidate_id current.id
            candidate_total_distance effective_trust_level
          if r.1 then
            (r.2, insertOnce
              { effective_trust_level, distance := candidate_total_distance,
                id := candidate_id } pending)
          else (r.2, pending)

/-- Process every outgoing edge of the currently visited node. -/
def trust_set_process_node (db : ProofDB) (params : TrustDistanceParams)
    (current : Visit) (st : TrustSet × List Visit) : TrustSet × List Visit :=
  (db.get_trust_list_of_id current.id).foldl
    (trust_set_process_edge params current) st

/-- The inner while-loop of calculate_trust_set_internal.  The extra fuel
argument bounds the number of iterations; the loop provably reaches one of
its own exits (empty frontier, or the restart break) before well-chosen
fuel runs out. -/
def trust_set_loop (db : ProofDB) (params : TrustDistanceParams)
    (initial_distrusted_len : Nat) :
    Nat → List Visit → TrustLevel → TrustSet → TrustSet
  | 0, _, _, current_trust_set => current_trust_set
  | fuel + 1, pending, previous_iter_trust_level, current_trust_set =>
    match popMin pending with
    | Option.none => current_trust_set
    | some (current, rest) =>
      if current.effective_trust_level ≠ previous_iter_trust_level ∧
          initial_distrusted_len ≠ current_trust_set.distrusted.length then
        current_trust_set
      else
        let previous' :=
          if current.effective_trust_level = previous_iter_trust_level
          then current.effective_trust_level else previous_iter_trust_level
        let st := trust_set_process_node db params current
          (current_trust_set, rest)
        trust_set_loop db params initial_distrusted_len fuel st.2 previous' st.1

/-- All edge targets appearing in the trust graph (used to bound the
traversal; every candidate the traversal can reach lies in this list). -/
def wotTargets (db : ProofDB) : List Id :=
  db.trust_id_to_id.flatMap (fun p => p.2.map Prod.fst)

/-- The finite universe of Ids relevant to a traversal from a given root. -/
def wotUniverse (db : ProofDB) (root : Id) : List Id :=
  (root :: wotTargets db).dedup

/-- Remaining-improvement potential of one reported_by entry. -/
def rbPot (rb : List (Id × TrustLevel)) (b : Id) : Nat :=
  match lookupA rb b with
  | Option.none => 6
  | some l => 5 - l.toNat

/-- Remaining-improvement potential of one trusted entry. -/
def entryPot (U : List Id) (e : TrustedIdDetails) : Nat :=
  e.distance + (5 - e.effective_trust_level.toNat) + (U.map (rbPot e.reported_by)).sum

/-- Strict upper bound for the potential of any recorded trusted entry. -/
def potMax (params : TrustDistanceParams) (U : List Id) : Nat :=
  params.max_distance + 6 + 6 * U.length

/-- Remaining-improvement potential of one Id in a trust set. -/
def idPot (params : TrustDistanceParams) (U : List Id) (ts : TrustSet)
    (z : Id) : Nat :=
  if ts.is_distrusted z then 0
  else
    match lookupA ts.trusted z with
    | Option.none => potMax params U
    | some e => entryPot U e

/-- Total remaining-improvement potential of a trust set: every iteration of
the traversal that grows the frontier strictly decreases it. -/
def wotPhi (db : ProofDB) (params : TrustDistanceParams) (root : Id)
    (ts : TrustSet) : Nat :=
  ((wotUniverse db root).map (idPot params (wotUniverse db root) ts)).sum

/-- ProofDB::calculate_trust_set_internal: seed the frontier with the root
at level High and distance 0 and run the traversal loop. -/
def ProofDB.calculate_trust_set_internal (db : ProofDB) (for_id : Id)
    (params : TrustDistanceParams)
    (distrusted : List (Id × DistrustedIdDetails)) : TrustSet :=
  let initial_distrusted_len := distrusted.length
  let ts0 : TrustSet := { trusted := [], distrusted := distrusted }
  let ts1 := (ts0.record_trusted_id for_id for_id 0 TrustLevel.high).2
  let pending0 : List Visit :=
    [{ effective_trust_level := TrustLevel.high, distance := 0, id := for_id }]
  trust_set_loop db params initial_distrusted_len
    (wotPhi db params for_id ts1 + 2) pending0 TrustLevel.high ts1

/-- The outer restart loop of calculate_trust_set: rerun the traversal with
the accumulated distrusted set until no new Ids get distrusted.  The fuel
bounds the number of restarts; each non-final restart strictly grows the
distrusted set, which lives inside the finite target universe. -/
def trust_set_outer (db : ProofDB) (for_id : Id)
    (params : TrustDistanceParams) :
    Nat → List (Id × DistrustedIdDetails) → TrustSet
  | 0, distrusted => db.calculate_trust_set_internal for_id params distrusted
  | fuel + 1, distrusted =>
    let trust_set := db.calculate_trust_set_internal for_id params distrusted
    if trust_set.distrusted.length ≤ distrusted.length then trust_set
    else trust_set_outer db for_id params fuel trust_set.distrusted

/-- ProofDB::calculate_trust_set. -/
def ProofDB.calculate_trust_set (db : ProofDB) (for_id : Id)
    (params : TrustDistanceParams) : TrustSet :=
  trust_set_outer db for_id params ((wotTargets db).dedup.length + 1) []

/-- The root is recorded trusted at distance 0 with level High. -/
def rootOK (root : Id) (ts : TrustSet) : Prop :=
  ∃ d, lookupA ts.trusted root = some d ∧ d.distance = 0 ∧
    d.effective_trust_level = TrustLevel.high

/-- The keys of the distrusted map. -/
def distrustedKeys (ts : TrustSet) : List Id :=
  ts.distrusted.map Prod.fst

/-- The trusted entry of the root produced by seeding the traversal. -/
def seedDetails (root : Id) : TrustedIdDetails :=
  { distance := 0,
    effective_trust_level := TrustLevel.high,
    reported_by := [(root, TrustLevel.high)] }

/-- The trust set right after seeding a traversal run. -/
def seedTrustSet (root : Id)
    (distrusted : List (Id × DistrustedIdDetails)) : TrustSet :=
  { trusted := [(root, seedDetails root)],
    distrusted := distrusted }

/-- Distrusted non-roots are never simultaneously trusted. -/
def jInv (root : Id) (ts : TrustSet) : Prop :=
  ∀ z, z ≠ root → (lookupA ts.distrusted z).isSome = true →
    lookupA ts.trusted z = Option.none

/-- Every trusted Id either still has a pending visit or has had all of its
outgoing Distrust edges recorded. -/
def pInv (db : ProofDB) (ts : TrustSet) (pending : List Visit) : Prop :=
  ∀ z, (lookupA ts.trusted z).isSome = true →
    (∃ v ∈ pending, v.id = z) ∨
    (∀ e ∈ db.get_trust_list_of_id z, e.1 = TrustLevel.distrust →
      (lookupA ts.distrusted e.2).isSome = true)

/-- Every trusted Id has had all of its outgoing Distrust edges recorded. -/
def processedAll (db : ProofDB) (ts : TrustSet) : Prop :=
  ∀ z, (lookupA ts.trusted z).isSome = true →
    ∀ e ∈ db.get_trust_list_of_id z, e.1 = TrustLevel.distrust →
      (lookupA ts.distrusted e.2).isSome = true

/-- Every recorded trusted distance is within the distance budget. -/
def distMaxInv (params : TrustDistanceParams) (ts : TrustSet) : Prop :=
  ∀ z e, lookupA ts.trusted z = some e → e.distance ≤ params.max_distance

/-! ### Concrete scenario data used by witnesses and counterexamples -/

/-- Scenario S2: A(0) -High→ B(1), A -High→ C(2), B -Distrust→ C. -/
def dbS2 : ProofDB :=
  { ProofDB.new with trust_id_to_id :=
      [(0, [(1, { date := 1, value := TrustLevel.high }),
            (2, { date := 1, value := TrustLevel.high })]),
       (1, [(2, { date := 2, value := TrustLevel.distrust })])] }

def v100 : SemVer := { major := 1, minor := 0, patch := 0 }

def v120 : SemVer := { major := 1, minor := 2, patch := 0 }

def v130 : SemVer := { major := 1, minor := 3, patch := 0 }

/-- Scenario S5, review of v1.0.0 reporting CVE-1 affecting the reporting
version and every later one (queried >= reported), so the report stays open
at later versions until an advisory cancels it. -/
def reviewS5a : PackageReview :=
  { from_ := { id := 10, url := Option.none }, date := 100,
    package :=
      { id := { id := { source := "crates", name := "x" }, version := v100 },
        digest := "d1" },
    review := 0, flags := 0, alternatives := [],
    issues := [{ id := "CVE-1", applies := fun q r => semverLe r q }],
    advisories := [] }

/-- Scenario S5, review of v1.2.0 carrying an advisory for CVE-1 whose
affects predicate matches every version below the reporting version
(in particular v1.0.0, but not v1.2.0 or v1.3.0). -/
def reviewS5b : PackageReview :=
  { from_ := { id := 10, url := Option.none }, date := 200,
    package :=
      { id := { id := { source := "crates", name := "x" }, version := v120 },
        digest := "d2" },
    review := 0, flags := 0, alternatives := [],
    issues := [],
    advisories := [{ ids := ["CVE-1"], applies := fun q r => semverLt q r }] }

def dbS5 : ProofDB :=
  (ProofDB.new.add_package_review reviewS5a "sig1"
    FetchSource.localUser).add_package_review reviewS5b "sig2"
    FetchSource.localUser

/-- Scenario S5 without the advisory-carrying review: the control store
showing that it is the advisory that cancels the CVE-1 report. -/
def dbS5noAdv : ProofDB :=
  ProofDB.new.add_package_review reviewS5a "sig1" FetchSource.localUser

/-- A trust set in which reviewer 10 is trusted at level High. -/
def tsS5 : TrustSet :=
  { trusted :=
      [(10,
        { distance := 0,
          effective_trust_level := TrustLevel.high,
          reported_by := [(10, TrustLevel.high)] })],
    distrusted := [] }

/-- A self-reported, verified URL observation for Id 0. -/
def dbC7a : ProofDB :=
  ProofDB.new.record_url_from_from_field 5 { id := 0, url := some "u1" }
    FetchSource.localUser

/-- A later, unverified self observation of a different URL for Id 0. -/
def dbC7b : ProofDB :=
  dbC7a.record_url_from_from_field 10 { id := 0, url := some "u2" }
    (FetchSource.url "elsewhere")

/-- Two trust proofs by author 1 attributing URLs to Id 0, newest last. -/
def dbC4 : ProofDB :=
  (ProofDB.new.add_trust
    { from_ := { id := 1, url := Option.none }, date := 5,
      trust := TrustLevel.low, ids := [{ id := 0, url := some "u1" }] }
    FetchSource.localUser).add_trust
    { from_ := { id := 1, url := Option.none }, date := 10,
      trust := TrustLevel.low, ids := [{ id := 0, url := some "u2" }] }
    FetchSource.localUser

/-- An element of an unrecognized proof kind. -/
def proofUnknownKind : Proof :=
  { kind := "flair",
    content := ProofContent.trust
      { from_ := { id := 0, url := Option.none }, date := 1,
        trust := TrustLevel.low, ids := [] },
    signature := "s0" }

/-- A raw trust-edge ingestion event (argument tuple of add_trust_raw). -/
structure RawTrustOp where
  from_ : Id
  to_ : Id
  date : Nat
  trust : TrustLevel
  deriving DecidableEq, Repr

/-- Fold a sequence of raw trust-edge events into a fresh store. -/
def buildTrustDB (ops : List RawTrustOp) : ProofDB :=
  ops.foldl (fun d o => d.add_trust_raw o.from_ o.to_ o.date o.trust)
    ProofDB.new

/-- The dates of the events of one (from, to) pair in an event sequence. -/
def datesFor (ops : List RawTrustOp) (f t : Id) : List Nat :=
  (ops.filter (fun o => o.from_ = f ∧ o.to_ = t)).map RawTrustOp.date

/-- Composite lookup of the stored trust edge of a (from, to) pair. -/
def lookup2 (db : ProofDB) (f t : Id) : Option TimestampedTrustLevel :=
  (lookupA db.trust_id_to_id f).bind (fun m => lookupA m t)

/-- Fold a sequence of to-field URL observations into a fresh store. -/
def buildOthersDB (ops : List (Nat × PublicId)) (db : ProofDB) : ProofDB :=
  ops.foldl (fun d o => d.record_url_from_to_field o.1 o.2) db

/-- The first URL observation for an Id in a to-field event sequence. -/
def firstToFieldUrl : List (Nat × PublicId) → Id → Option TimestampedUrl
  | [], _ => Option.none
  | (date, pid) :: rest, id =>
    match pid.url with
    | some url =>
      if pid.id = id then some { date, value := url }
      else firstToFieldUrl rest id
    | Option.none => firstToFieldUrl rest id

/-- The distinct (from, to) pairs of a raw trust-edge event sequence. -/
def distinctPairs (ops : List RawTrustOp) : List (Id × Id) :=
  ops.foldl (fun acc o => insertOnce (o.from_, o.to_) acc) []

/-- The dates of the events that touch a given key, in a fold of
timestamp-merged ingestion events. -/
def eventDates {E K : Type} [DecidableEq K] (keyOf : E → K) (dateOf : E → Nat)
    (events : List E) (k : K) : List Nat :=
  (events.filter (fun ev => keyOf ev = k)).map dateOf

/-- Fold a sequence of package-review ingestion events into a fresh store. -/
def buildReviewDB (revs : List (PackageReview × Signature × FetchSource)) :
    ProofDB :=
  revs.foldl (fun d rv => d.add_package_review rv.1 rv.2.1 rv.2.2) ProofDB.new

/-- Fold a sequence of from-field URL self observations (each declaring a
URL) into a fresh store. -/
def buildSelfDB (obs : List (Nat × Id × Url × FetchSource)) : ProofDB :=
  obs.foldl (fun d o => d.record_url_from_from_field o.1
    { id := o.2.1, url := some o.2.2.1 } o.2.2.2) ProofDB.new


/-- A raw trust event for the pair (1, 0). -/
def opC10 : RawTrustOp :=
  { from_ := 1, to_ := 0, date := 5, trust := TrustLevel.low }

/-- A later trust proof over the already-present pair (1, 0). -/
def trustProofC10 : TrustProof :=
  { from_ := { id := 1, url := Option.none }, date := 9,
    trust := TrustLevel.high, ids := [{ id := 0, url := Option.none }] }



end CrevWot

/-! ## Theorems -/

namespace CrevWot

/-! ### Association list lemmas -/

variable {κ : Type} {α : Type}

theorem lookupA_setA_self [DecidableEq κ] (l : List (κ × α)) (k : κ) (v : α) :
    lookupA (setA l k v) k = some v := by
  induction l with
  | nil => simp [setA, lookupA]
  | cons p rest ih =>
    obtain ⟨k', w⟩ := p
    by_cases h : k' = k <;> simp [setA, lookupA, h, ih]

theorem lookupA_setA_other [DecidableEq κ] (l : List (κ × α)) (k k' : κ) (v : α)
    (h : k' ≠ k) : lookupA (setA l k v) k' = lookupA l k' := by
  induction l with
  | nil => simp [setA, lookupA, Ne.symm h]
  | cons p rest ih =>
    obtain ⟨k0, w⟩ := p
    by_cases h0 : k0 = k
    · subst h0
      simp [setA, lookupA, Ne.symm h]
    · by_cases h1 : k0 = k' <;> simp [setA, lookupA, h0, h1, ih, h]

theorem lookupA_upsertA_self [DecidableEq κ] (l : List (κ × α)) (k : κ)
    (f : α → α) (ins : α) :
    lookupA (upsertA l k f ins) k =
      some (match lookupA l k with | some v => f v | Option.none => ins) := by
  induction l with
  | nil => simp [upsertA, lookupA]
  | cons p rest ih =>
    obtain ⟨k', w⟩ := p
    by_cases h : k' = k <;> simp [upsertA, lookupA, h, ih]

theorem lookupA_upsertA_other [DecidableEq κ] (l : List (κ × α)) (k k' : κ)
    (f : α → α) (ins : α) (h : k' ≠ k) :
    lookupA (upsertA l k f ins) k' = lookupA l k' := by
  induction l with
  | nil => simp [upsertA, lookupA, Ne.symm h]
  | cons p rest ih =>
    obtain ⟨k0, w⟩ := p
    by_cases h0 : k0 = k
    · subst h0
      simp [upsertA, lookupA, Ne.symm h]
    · by_cases h1 : k0 = k' <;> simp [upsertA, lookupA, h0, h1, ih, h]

theorem lookupA_eraseA_self [DecidableEq κ] (l : List (κ × α)) (k : κ) :
    lookupA (eraseA l k) k = Option.none := by
  induction l with
  | nil => simp [eraseA, lookupA]
  | cons p rest ih =>
    obtain ⟨k', w⟩ := p
    by_cases h : k' = k <;> simp_all [eraseA, lookupA, List.filter]

theorem lookupA_eraseA_other [DecidableEq κ] (l : List (κ × α)) (k k' : κ)
    (h : k' ≠ k) : lookupA (eraseA l k) k' = lookupA l k' := by
  induction l with
  | nil => simp [eraseA, lookupA]
  | cons p rest ih =>
    obtain ⟨k0, w⟩ := p
    by_cases h0 : k0 = k
    · subst h0
      simp_all [eraseA, lookupA, List.filter, Ne.symm h]
    · by_cases h1 : k0 = k' <;> simp_all [eraseA, lookupA, List.filter, h0]

theorem upsertA_length [DecidableEq κ] (l : List (κ × α)) (k : κ)
    (f : α → α) (ins : α) :
    (upsertA l k f ins).length =
      l.length + (match lookupA l k with | some _ => 0 | Option.none => 1) := by
  induction l with
  | nil => simp [upsertA, lookupA]
  | cons p rest ih =>
    obtain ⟨k', w⟩ := p
    by_cases h : k' = k <;> simp [upsertA, lookupA, h, ih] <;> omega

theorem mem_insertOnce [DecidableEq α] (a x : α) (l : List α) :
    x ∈ insertOnce a l ↔ x = a ∨ x ∈ l := by
  unfold insertOnce
  by_cases h : a ∈ l
  · simp only [if_pos h]
    constructor
    · exact Or.inr
    · rintro (rfl | hx)
      · exact h
      · exact hx
  · simp [if_neg h]

theorem insertOnce_length [DecidableEq α] (a : α) (l : List α) :
    (insertOnce a l).length = l.length + (if a ∈ l then 0 else 1) := by
  by_cases h : a ∈ l <;> simp [insertOnce, h]

theorem sum_map_le_sum_map {β : Type} (l : List β) (f g : β → Nat)
    (h : ∀ a ∈ l, f a ≤ g a) : (l.map f).sum ≤ (l.map g).sum := by
  induction l with
  | nil => simp
  | cons b rest ih =>
    simp only [List.map_cons, List.sum_cons]
    have hb := h b (List.mem_cons_self b rest)
    have hr := ih (fun a ha => h a (List.mem_cons_of_mem b ha))
    omega

theorem sum_map_lt_sum_map {β : Type} (l : List β) (f g : β → Nat)
    (h : ∀ a ∈ l, f a ≤ g a) (a₀ : β) (ha : a₀ ∈ l) (hlt : f a₀ < g a₀) :
    (l.map f).sum < (l.map g).sum := by
  induction l with
  | nil => cases ha
  | cons b rest ih =>
    simp only [List.map_cons, List.sum_cons]
    rcases List.mem_cons.mp ha with rfl | ha'
    · have hr := sum_map_le_sum_map rest f g
        (fun a hx => h a (List.mem_cons_of_mem _ hx))
      omega
    · have hb := h _ (List.mem_cons_self _ rest)
      have hr := ih (fun a hx => h a (List.mem_cons_of_mem _ hx)) ha'
      omega

theorem sum_map_le_const {β : Type} (l : List β) (f : β → Nat) (c : Nat)
    (h : ∀ a ∈ l, f a ≤ c) : (l.map f).sum ≤ c * l.length := by
  induction l with
  | nil => simp
  | cons b rest ih =>
    simp only [List.map_cons, List.sum_cons, List.length_cons]
    have hb := h b (List.mem_cons_self b rest)
    have hr := ih (fun a ha => h a (List.mem_cons_of_mem b ha))
    have : c * (rest.length + 1) = c * rest.length + c := by ring
    omega

theorem toNat_le_four (a : TrustLevel) : a.toNat ≤ 4 := by
  cases a <;> simp [TrustLevel.toNat]

theorem update_to_more_recent_date {α : Type} (t o : Timestamped α) :
    (t.update_to_more_recent o).date = max t.date o.date := by
  unfold Timestamped.update_to_more_recent
  by_cases h : t.date ≤ o.date <;> simp [h] <;> omega

/-! ### Claim C3 -/

/-- Claim C3: Timestamped::update_to_more_recent overwrites both the date
and the value with the other record exactly when other.date >= self.date
(so on exactly equal dates the incoming value wins), and leaves the record
completely unchanged when other.date < self.date. -/
theorem timestamped_merge_spec {α : Type} (t o : Timestamped α) :
    (t.date ≤ o.date →
      t.update_to_more_recent o = { date := o.date, value := o.value }) ∧
    (o.date < t.date → t.update_to_more_recent o = t) := by
  constructor
  · intro h
    simp [Timestamped.update_to_more_recent, h]
  · intro h
    simp [Timestamped.update_to_more_recent, Nat.not_le.mpr h]

/-- Witness for C3: equal dates overwrite (tie-break), older dates do not. -/
theorem timestamped_merge_spec_witness :
    Timestamped.update_to_more_recent
      ({ date := 3, value := 5 } : Timestamped Nat) { date := 3, value := 9 } =
      { date := 3, value := 9 } ∧
    Timestamped.update_to_more_recent
      ({ date := 7, value := 5 } : Timestamped Nat) { date := 3, value := 9 } =
      { date := 7, value := 5 } :=
  ⟨(timestamped_merge_spec { date := 3, value := 5 } { date := 3, value := 9 }).1
      (by decide),
   (timestamped_merge_spec { date := 7, value := 5 } { date := 3, value := 9 }).2
      (by decide)⟩

/-! ### Claim C6 -/

/-- Claim C6: lookup_url returns the self-reported URL as FromSelfVerified
when the verified flag is set, else as FromSelf when a self entry exists,
else the others-reported URL as FromOthers when one exists, else None; and
to-field ingestion (which feeds the others map) never touches the self map. -/
theorem lookup_url_priority (db : ProofDB) (id : Id) :
    (∀ u, lookupA db.url_by_id_self_reported id = some (u, true) →
      db.lookup_url id = UrlOfId.fromSelfVerified u.value) ∧
    (∀ u, lookupA db.url_by_id_self_reported id = some (u, false) →
      db.lookup_url id = UrlOfId.fromSelf u.value) ∧
    (lookupA db.url_by_id_self_reported id = Option.none →
      ∀ u, lookupA db.url_by_id_reported_by_others id = some u →
        db.lookup_url id = UrlOfId.fromOthers u.value) ∧
    (lookupA db.url_by_id_self_reported id = Option.none →
      lookupA db.url_by_id_reported_by_others id = Option.none →
      db.lookup_url id = UrlOfId.none) ∧
    (∀ date to_,
      (db.record_url_from_to_field date to_).url_by_id_self_reported =
        db.url_by_id_self_reported) := by
  refine ⟨?_, ?_, ?_, ?_, ?_⟩
  · intro u h
    simp [ProofDB.lookup_url, h]
  · intro u h
    simp [ProofDB.lookup_url, h]
  · intro h u h'
    simp [ProofDB.lookup_url, h, h']
  · intro h h'
    simp [ProofDB.lookup_url, h, h']
  · intro date to_
    cases hto : to_.url <;> simp [ProofDB.record_url_from_to_field, hto]

/-- Witness for C6 at a concrete store holding one verified self entry. -/
theorem lookup_url_priority_witness :
    ({ ProofDB.new with url_by_id_self_reported :=
        [(0, ({ date := 5, value := "u1" }, true))] } : ProofDB).lookup_url 0 =
      UrlOfId.fromSelfVerified "u1" :=
  (lookup_url_priority
    { ProofDB.new with url_by_id_self_reported :=
        [(0, ({ date := 5, value := "u1" }, true))] } 0).1
    { date := 5, value := "u1" } (by decide)

/-! ### Claim C7 -/

/-- Counterexample for C7: after Id 0's URL entry is verified, a later
unverified self observation with a newer date does change lookup_url's
FromSelfVerified result (the carried URL flips from u1 to u2), though the
verified flag itself stays set. -/
theorem later_unverified_observation_changes_verified_url :
    dbC7a.lookup_url 0 = UrlOfId.fromSelfVerified "u1" ∧
    dbC7b.lookup_url 0 = UrlOfId.fromSelfVerified "u2" := by
  constructor <;> rfl

/-- Claim C7 (amended): once the verified flag on an Id's self entry is set,
no later ingestion resets it — any later self observation keeps the flag
true (though a newer-dated one may update the stored URL), and a proof by
another author attributing a URL to the Id leaves lookup_url unchanged. -/
theorem verified_flag_sticky (db : ProofDB) (id : Id) (u : TimestampedUrl)
    (h : lookupA db.url_by_id_self_reported id = some (u, true)) :
    ∀ date pid fs to_,
      (∃ u', lookupA
          (db.record_url_from_from_field date pid fs).url_by_id_self_reported
          id = some (u', true)) ∧
      (db.record_url_from_to_field date to_).lookup_url id =
        db.lookup_url id := by
  intro date pid fs to_
  constructor
  · cases hurl : pid.url with
    | none => exact ⟨u, by simpa [ProofDB.record_url_from_from_field, hurl] using h⟩
    | some url =>
      by_cases hid : pid.id = id
      · subst hid
        refine ⟨(u.update_to_more_recent { date, value := url }), ?_⟩
        simp only [ProofDB.record_url_from_from_field, hurl]
        rw [lookupA_upsertA_self, h]
        simp
      · refine ⟨u, ?_⟩
        simp only [ProofDB.record_url_from_from_field, hurl]
        rw [lookupA_upsertA_other _ _ _ _ _ (Ne.symm hid)]
        exact h
  · have hself : (db.record_url_from_to_field date to_).url_by_id_self_reported =
        db.url_by_id_self_reported := by
      cases hto : to_.url <;> simp [ProofDB.record_url_from_to_field, hto]
    simp [ProofDB.lookup_url, hself, h]

/-- Witness for C7 (amended) at a concrete verified entry. -/
theorem verified_flag_sticky_witness :
    (∃ u', lookupA
        (dbC7a.record_url_from_from_field 10 { id := 0, url := some "u2" }
          (FetchSource.url "elsewhere")).url_by_id_self_reported 0 =
        some (u', true)) ∧
    (dbC7a.record_url_from_to_field 10
        { id := 0, url := some "other" }).lookup_url 0 = dbC7a.lookup_url 0 :=
  verified_flag_sticky dbC7a 0 { date := 5, value := "u1" } (by decide) 10
    { id := 0, url := some "u2" } (FetchSource.url "elsewhere")
    { id := 0, url := some "other" }

/-! ### Claim C8 -/

/-- Claim C8: ingesting a proof of an unrecognized kind fails with the
UnknownProofType error (and, the add being pure, yields no changed store),
while bulk ingestion import_from_iter skips the failing proof and still
ingests every remaining proof of the stream. -/
theorem unknown_proof_kind_skipped (db : ProofDB) (content : ProofContent)
    (signature : Signature) (fs : FetchSource) (tag : String)
    (h1 : tag ≠ CodeReview.KIND) (h2 : tag ≠ PackageReview.KIND)
    (h3 : tag ≠ TrustProof.KIND) :
    db.add_proof { kind := tag, content, signature } fs =
      Except.error (Error.unknownProofType tag) ∧
    ∀ (l1 l2 : List (Proof × FetchSource)) (fs2 : FetchSource),
      db.import_from_iter
          (l1 ++ ({ kind := tag, content, signature }, fs2) :: l2) =
        db.import_from_iter (l1 ++ l2) := by
  constructor
  · simp [ProofDB.add_proof, h1, h2, h3]
  · intro l1 l2 fs2
    unfold ProofDB.import_from_iter
    rw [List.foldl_append, List.foldl_append, List.foldl_cons]
    simp [ProofDB.add_proof, h1, h2, h3]

/-- Witness for C8 at a concrete unknown-kind proof. -/
theorem unknown_proof_kind_skipped_witness :
    ProofDB.new.add_proof proofUnknownKind FetchSource.localUser =
      Except.error (Error.unknownProofType "flair") ∧
    ∀ (l1 l2 : List (Proof × FetchSource)) (fs2 : FetchSource),
      ProofDB.new.import_from_iter
          (l1 ++ (proofUnknownKind, fs2) :: l2) =
        ProofDB.new.import_from_iter (l1 ++ l2) :=
  unknown_proof_kind_skipped ProofDB.new proofUnknownKind.content "s0"
    FetchSource.localUser "flair" (by decide) (by decide) (by decide)

/-! ### Claim C9 -/

/-- Claim C9: every review query taking an optional name and version
(get_package_reviews_for_package, get_advisories,
get_pkg_reviews_with_issues_for) hits the panic on the argument shape
(name=None, version=Some) — modelled as an Option.none result, which a
silently returned empty list (some []) is not — while every other shape
produces a list. -/
theorem query_shape_fails_fast (db : ProofDB) (source : Source)
    (version : SemVer) (trust_set : TrustSet) (req : TrustLevel) :
    db.get_package_reviews_for_package source Option.none (some version) =
      Option.none ∧
    db.get_advisories source Option.none (some version) = Option.none ∧
    db.get_pkg_reviews_with_issues_for source Option.none (some version)
      trust_set req = Option.none ∧
    (∀ name,
      (db.get_package_reviews_for_package source (some name)
          (some version)).isSome = true ∧
      (db.get_package_reviews_for_package source (some name)
          Option.none).isSome = true ∧
      (db.get_advisories source (some name) (some version)).isSome = true ∧
      (db.get_pkg_reviews_with_issues_for source (some name) (some version)
          trust_set req).isSome = true) ∧
    (db.get_package_reviews_for_package source Option.none
        Option.none).isSome = true ∧
    (db.get_advisories source Option.none Option.none).isSome = true ∧
    (db.get_pkg_reviews_with_issues_for source Option.none Option.none
        trust_set req).isSome = true :=
  ⟨rfl, rfl, rfl, fun _ => ⟨rfl, rfl, rfl, rfl⟩, rfl, rfl, rfl⟩

/-! ### Claim C5 -/

/-- Claim C5: with a trusted review of v1.0.0 reporting issue CVE-1
affecting v1.0.0 and every later version, and a trusted review of v1.2.0
carrying an advisory for CVE-1 whose affects predicate matches all versions
below v1.2.0, get_open_issues_for_version returns no entry for CVE-1 at
v1.3.0 (the advisory cancels the report that the issue-bearing review would
otherwise keep open there, as the third conjunct shows on the store without
the advisory), while at v1.0.0 it still reports CVE-1 as open. -/
theorem advisory_cancels_issue :
    lookupA (dbS5.get_open_issues_for_version "crates" "x" v130 tsS5
      TrustLevel.low) "CVE-1" = Option.none ∧
    (lookupA (dbS5.get_open_issues_for_version "crates" "x" v100 tsS5
      TrustLevel.low) "CVE-1").isSome = true ∧
    (lookupA (dbS5noAdv.get_open_issues_for_version "crates" "x" v130 tsS5
      TrustLevel.low) "CVE-1").isSome = true := by
  refine ⟨rfl, ?_, ?_⟩
  · rfl
  · rfl

/-! ### Claim C4 -/

theorem lookup2_add_trust_raw_self (db : ProofDB) (f' t' : Id) (d : Nat)
    (l : TrustLevel) :
    lookup2 (db.add_trust_raw f' t' d l) f' t' =
      some (match lookup2 db f' t' with
        | Option.none => { date := d, value := l }
        | some e => e.update_to_more_recent { date := d, value := l }) := by
  unfold lookup2 ProofDB.add_trust_raw
  simp only [lookupA_upsertA_self]
  cases hin : lookupA db.trust_id_to_id f' with
  | none => simp [lookupA_upsertA_self, lookupA]
  | some m =>
    cases h2 : lookupA m t' <;> simp [lookupA_upsertA_self, h2]

theorem lookup2_add_trust_raw_other (db : ProofDB) (f' t' : Id) (d : Nat)
    (l : TrustLevel) (f t : Id) (h : ¬(f = f' ∧ t = t')) :
    lookup2 (db.add_trust_raw f' t' d l) f t = lookup2 db f t := by
  unfold lookup2 ProofDB.add_trust_raw
  by_cases hf : f = f'
  · subst hf
    have ht : t ≠ t' := fun hteq => h ⟨rfl, hteq⟩
    simp only [lookupA_upsertA_self]
    cases hin : lookupA db.trust_id_to_id f with
    | none => simp [lookupA, upsertA, Ne.symm ht]
    | some m => simp [lookupA_upsertA_other _ _ _ _ _ ht]
  · simp only [lookupA_upsertA_other _ _ _ _ _ hf]

theorem buildTrustDB_snoc (ops : List RawTrustOp) (o : RawTrustOp) :
    buildTrustDB (ops ++ [o]) =
      (buildTrustDB ops).add_trust_raw o.from_ o.to_ o.date o.trust := by
  simp [buildTrustDB, List.foldl_append]

theorem datesFor_snoc (ops : List RawTrustOp) (o : RawTrustOp) (f t : Id) :
    datesFor (ops ++ [o]) f t =
      datesFor ops f t ++
        (if o.from_ = f ∧ o.to_ = t then [o.date] else []) := by
  by_cases h : o.from_ = f ∧ o.to_ = t <;>
    simp [datesFor, List.filter_append, h]

/-- Invariant behind the monotonicity claim: a stored trust edge carries the
maximum date of all ingested events for its pair, and absent pairs had no
events. -/
theorem stored_trust_edge_max (ops : List RawTrustOp) (f t : Id) :
    (lookup2 (buildTrustDB ops) f t = Option.none → datesFor ops f t = []) ∧
    (∀ e, lookup2 (buildTrustDB ops) f t = some e →
      e.date ∈ datesFor ops f t ∧ ∀ d ∈ datesFor ops f t, d ≤ e.date) := by
  induction ops using List.reverseRecOn with
  | nil =>
    constructor
    · intro _
      simp [datesFor]
    · intro e he
      simp [buildTrustDB, lookup2, ProofDB.new, lookupA] at he
  | append_singleton ops o ih =>
    rw [buildTrustDB_snoc]
    by_cases hp : o.from_ = f ∧ o.to_ = t
    · obtain ⟨hpf, hpt⟩ := hp
      subst hpf
      subst hpt
      rw [lookup2_add_trust_raw_self]
      constructor
      · intro he
        cases he
      · intro e he
        rw [datesFor_snoc]
        simp only [if_pos (And.intro rfl rfl)]
        cases hold : lookup2 (buildTrustDB ops) o.from_ o.to_ with
        | none =>
          rw [hold] at he
          have hdates := ih.1 hold
          simp only [Option.some_inj] at he
          subst he
          simp [hdates]
        | some e0 =>
          rw [hold] at he
          simp only [Option.some_inj] at he
          subst he
          have hmax := ih.2 e0 hold
          rw [update_to_more_recent_date]
          constructor
          · rcases Nat.le_total e0.date o.date with hle | hle
            · simp [Nat.max_eq_right hle]
            · exact List.mem_append_left _
                (by simpa [Nat.max_eq_left hle] using hmax.1)
          · intro d hd
            rcases List.mem_append.mp hd with hd | hd
            · exact le_trans (hmax.2 d hd) (Nat.le_max_left _ _)
            · cases hd with
              | head => exact Nat.le_max_right _ _
              | tail _ hnil => cases hnil
    · rw [lookup2_add_trust_raw_other _ _ _ _ _ _ _
        (fun hc => hp ⟨hc.1.symm, hc.2.symm⟩)]
      rw [datesFor_snoc]
      simp only [if_neg hp, List.append_nil]
      exact ih

theorem buildOthersDB_lookup (ops : List (Nat × PublicId)) (db : ProofDB)
    (id : Id) :
    lookupA (buildOthersDB ops db).url_by_id_reported_by_others id =
      match lookupA db.url_by_id_reported_by_others id with
      | some v => some v
      | Option.none => firstToFieldUrl ops id := by
  induction ops generalizing db with
  | nil =>
    cases h : lookupA db.url_by_id_reported_by_others id <;>
      simp [buildOthersDB, firstToFieldUrl, h]
  | cons op rest ih =>
    obtain ⟨date, pid⟩ := op
    have hstep : buildOthersDB ((date, pid) :: rest) db =
        buildOthersDB rest (db.record_url_from_to_field date pid) := by
      simp [buildOthersDB]
    rw [hstep, ih]
    cases hurl : pid.url with
    | none =>
      simp [ProofDB.record_url_from_to_field, hurl, firstToFieldUrl]
    | some url =>
      by_cases hid : pid.id = id
      · subst hid
        simp only [ProofDB.record_url_from_to_field, hurl]
        rw [lookupA_upsertA_self]
        simp only [firstToFieldUrl, hurl, if_pos rfl]
        cases h : lookupA db.url_by_id_reported_by_others pid.id <;> simp [h]
      · simp only [ProofDB.record_url_from_to_field, hurl]
        rw [lookupA_upsertA_other _ _ _ _ _ (Ne.symm hid)]
        simp only [firstToFieldUrl, hurl, if_neg hid]

/-- Counterexample for C4: two trust proofs by the same author attribute a
URL to Id 0 with dates 5 then 10; the stored url_by_id_others entry keeps the
first observation (date 5), not the maximum ingested timestamp (10). -/
theorem url_by_id_others_keeps_first :
    lookupA dbC4.url_by_id_reported_by_others 0 =
      some { date := 5, value := "u1" } ∧
    (lookupA dbC4.url_by_id_reported_by_others 0).map Timestamped.date ≠
      some 10 := by
  constructor
  · rfl
  · decide

/-- Generic max-timestamp invariant: a store view updated by folding events
through the update_to_more_recent merge keeps, for every key, an entry
dated with the maximum date over the events that touched the key (and no
entry at all when no event touched it). -/
theorem storeMax {S E K V : Type} [DecidableEq K]
    (step : S → E → S) (proj : S → K → Option (Timestamped V))
    (keyOf : E → K) (dateOf : E → Nat) (valOf : E → V) (s0 : S)
    (hself_none : ∀ s e, proj s (keyOf e) = Option.none →
      proj (step s e) (keyOf e) =
        some { date := dateOf e, value := valOf e })
    (hself_some : ∀ s e x, proj s (keyOf e) = some x →
      proj (step s e) (keyOf e) =
        some (x.update_to_more_recent { date := dateOf e, value := valOf e }))
    (hother : ∀ s e k, k ≠ keyOf e → proj (step s e) k = proj s k)
    (hinit : ∀ k, proj s0 k = Option.none) :
    ∀ (events : List E) (k : K),
      (proj (events.foldl step s0) k = Option.none →
        eventDates keyOf dateOf events k = []) ∧
      (∀ x, proj (events.foldl step s0) k = some x →
        x.date ∈ eventDates keyOf dateOf events k ∧
        ∀ d ∈ eventDates keyOf dateOf events k, d ≤ x.date) := by
  intro events
  induction events using List.reverseRecOn with
  | nil =>
    intro k
    constructor
    · intro _
      simp [eventDates]
    · intro x hx
      simp only [List.foldl_nil] at hx
      rw [hinit k] at hx
      cases hx
  | append_singleton evs e ih =>
    intro k
    have hfold : (evs ++ [e]).foldl step s0 = step (evs.foldl step s0) e := by
      simp [List.foldl_append]
    have hdates : eventDates keyOf dateOf (evs ++ [e]) k =
        eventDates keyOf dateOf evs k ++
          (if keyOf e = k then [dateOf e] else []) := by
      by_cases h : keyOf e = k <;> simp [eventDates, List.filter_append, h]
    rw [hfold]
    by_cases hk : k = keyOf e
    · subst hk
      rw [hdates, if_pos rfl]
      cases hold : proj (evs.foldl step s0) (keyOf e) with
      | none =>
        rw [hself_none _ _ hold]
        constructor
        · intro hx
          cases hx
        · intro x hx
          simp only [Option.some_inj] at hx
          subst hx
          have hdates0 := (ih (keyOf e)).1 hold
          rw [hdates0]
          simp
      | some x0 =>
        rw [hself_some _ _ x0 hold]
        constructor
        · intro hx
          cases hx
        · intro x hx
          simp only [Option.some_inj] at hx
          subst hx
          have hmax := (ih (keyOf e)).2 x0 hold
          rw [update_to_more_recent_date]
          constructor
          · rcases Nat.le_total x0.date (dateOf e) with hle | hle
            · apply List.mem_append_right
              simp [Nat.max_eq_right hle]
            · apply List.mem_append_left
              simpa [Nat.max_eq_left hle] using hmax.1
          · intro d hd
            rcases List.mem_append.mp hd with hd | hd
            · exact le_trans (hmax.2 d hd) (Nat.le_max_left _ _)
            · cases hd with
              | head => exact Nat.le_max_right _ _
              | tail _ hnil => cases hnil
    · rw [hdates, if_neg (fun h => hk h.symm), hother _ _ _ hk]
      simp only [List.append_nil]
      exact ih k

/-- record_url_from_from_field touches only the self-reported URL map. -/
theorem record_from_field_other_fields (db : ProofDB) (d : Nat)
    (pid : PublicId) (ff : FetchSource) :
    (db.record_url_from_from_field d pid ff).trust_id_to_id =
        db.trust_id_to_id ∧
    (db.record_url_from_from_field d pid
        ff).package_review_signatures_by_pkg_review_id =
      db.package_review_signatures_by_pkg_review_id ∧
    (db.record_url_from_from_field d pid
        ff).package_review_signatures_by_package_digest =
      db.package_review_signatures_by_package_digest ∧
    (db.record_url_from_from_field d pid ff).package_alternatives =
      db.package_alternatives ∧
    (db.record_url_from_from_field d pid ff).package_flags =
      db.package_flags := by
  unfold ProofDB.record_url_from_from_field
  cases hu : pid.url <;> exact ⟨rfl, rfl, rfl, rfl, rfl⟩

theorem add_package_review_sig_field0 (db : ProofDB) (r : PackageReview)
    (s : Signature) (ff : FetchSource) :
    (db.add_package_review r s ff).package_review_signatures_by_pkg_review_id
      = upsertA (ProofDB.record_url_from_from_field
          { db with insertion_counter := db.insertion_counter + 1 }
          r.date r.from_ ff).package_review_signatures_by_pkg_review_id
        (PkgVersionReviewId.ofReview r)
        (fun x => x.update_to_more_recent { date := r.date, value := s })
        { date := r.date, value := s } := rfl

theorem add_package_review_sig_field (db : ProofDB) (r : PackageReview)
    (s : Signature) (ff : FetchSource) :
    (db.add_package_review r s ff).package_review_signatures_by_pkg_review_id
      = upsertA db.package_review_signatures_by_pkg_review_id
        (PkgVersionReviewId.ofReview r)
        (fun x => x.update_to_more_recent { date := r.date, value := s })
        { date := r.date, value := s } := by
  rw [add_package_review_sig_field0,
    (record_from_field_other_fields _ _ _ _).2.1]

theorem add_package_review_digest_field0 (db : ProofDB) (r : PackageReview)
    (s : Signature) (ff : FetchSource) :
    (db.add_package_review r s
        ff).package_review_signatures_by_package_digest
      = upsertA (ProofDB.record_url_from_from_field
          { db with insertion_counter := db.insertion_counter + 1 }
          r.date r.from_ ff).package_review_signatures_by_package_digest
        r.package.digest
        (fun m => upsertA m (PkgVersionReviewId.ofReview r)
          (fun x => x.update_to_more_recent { date := r.date, value := s })
          { date := r.date, value := s })
        (upsertA [] (PkgVersionReviewId.ofReview r)
          (fun x => x.update_to_more_recent { date := r.date, value := s })
          { date := r.date, value := s }) := rfl

theorem add_package_review_digest_field (db : ProofDB) (r : PackageReview)
    (s : Signature) (ff : FetchSource) :
    (db.add_package_review r s
        ff).package_review_signatures_by_package_digest
      = upsertA db.package_review_signatures_by_package_digest
        r.package.digest
        (fun m => upsertA m (PkgVersionReviewId.ofReview r)
          (fun x => x.update_to_more_recent { date := r.date, value := s })
          { date := r.date, value := s })
        (upsertA [] (PkgVersionReviewId.ofReview r)
          (fun x => x.update_to_more_recent { date := r.date, value := s })
          { date := r.date, value := s }) := by
  rw [add_package_review_digest_field0,
    (record_from_field_other_fields _ _ _ _).2.2.1]

theorem add_package_review_alt_field0 (db : ProofDB) (r : PackageReview)
    (s : Signature) (ff : FetchSource) :
    (db.add_package_review r s ff).package_alternatives
      = upsertA (ProofDB.record_url_from_from_field
          { db with insertion_counter := db.insertion_counter + 1 }
          r.date r.from_ ff).package_alternatives
        r.package.id.id
        (fun m => upsertA m r.from_.id
          (fun x => x.update_to_more_recent { date := r.date, value := s })
          { date := r.date, value := s })
        (upsertA [] r.from_.id
          (fun x => x.update_to_more_recent { date := r.date, value := s })
          { date := r.date, value := s }) := rfl

theorem add_package_review_alt_field (db : ProofDB) (r : PackageReview)
    (s : Signature) (ff : FetchSource) :
    (db.add_package_review r s ff).package_alternatives
      = upsertA db.package_alternatives r.package.id.id
        (fun m => upsertA m r.from_.id
          (fun x => x.update_to_more_recent { date := r.date, value := s })
          { date := r.date, value := s })
        (upsertA [] r.from_.id
          (fun x => x.update_to_more_recent { date := r.date, value := s })
          { date := r.date, value := s }) := by
  rw [add_package_review_alt_field0,
    (record_from_field_other_fields _ _ _ _).2.2.2.1]

theorem add_package_review_flags_field0 (db : ProofDB) (r : PackageReview)
    (s : Signature) (ff : FetchSource) :
    (db.add_package_review r s ff).package_flags
      = upsertA (ProofDB.record_url_from_from_field
          { db with insertion_counter := db.insertion_counter + 1 }
          r.date r.from_ ff).package_flags
        r.package.id.id
        (fun m => upsertA m r.from_.id
          (fun x => x.update_to_more_recent { date := r.date, value := r.flags })
          { date := r.date, value := r.flags })
        (upsertA [] r.from_.id
          (fun x => x.update_to_more_recent { date := r.date, value := r.flags })
          { date := r.date, value := r.flags }) := rfl

theorem add_package_review_flags_field (db : ProofDB) (r : PackageReview)
    (s : Signature) (ff : FetchSource) :
    (db.add_package_review r s ff).package_flags
      = upsertA db.package_flags r.package.id.id
        (fun m => upsertA m r.from_.id
          (fun x => x.update_to_more_recent { date := r.date, value := r.flags })
          { date := r.date, value := r.flags })
        (upsertA [] r.from_.id
          (fun x => x.update_to_more_recent { date := r.date, value := r.flags })
          { date := r.date, value := r.flags }) := by
  rw [add_package_review_flags_field0,
    (record_from_field_other_fields _ _ _ _).2.2.2.2]

theorem record_from_field_self_url (db : ProofDB) (d : Nat) (i : Id)
    (u : Url) (ff : FetchSource) :
    (db.record_url_from_from_field d { id := i, url := some u }
        ff).url_by_id_self_reported =
      upsertA db.url_by_id_self_reported i
        (fun e => (e.1.update_to_more_recent { date := d, value := u },
          e.2 || (match ff with
            | FetchSource.localUser => true
            | FetchSource.url fu => fu == u)))
        ({ date := d, value := u },
         (match ff with
           | FetchSource.localUser => true
           | FetchSource.url fu => fu == u)) := by
  cases ff <;> rfl

theorem add_package_review_sig_lookup (db : ProofDB) (r : PackageReview)
    (s : Signature) (ff : FetchSource) :
    lookupA (db.add_package_review r s
        ff).package_review_signatures_by_pkg_review_id
        (PkgVersionReviewId.ofReview r) =
      some (match lookupA db.package_review_signatures_by_pkg_review_id
          (PkgVersionReviewId.ofReview r) with
        | Option.none => { date := r.date, value := s }
        | some e => e.update_to_more_recent { date := r.date, value := s }) := by
  rw [add_package_review_sig_field, lookupA_upsertA_self]
  cases h2 : lookupA db.package_review_signatures_by_pkg_review_id
      (PkgVersionReviewId.ofReview r) <;> rfl

theorem add_package_review_digest_lookup (db : ProofDB) (r : PackageReview)
    (s : Signature) (ff : FetchSource) :
    (lookupA (db.add_package_review r s
        ff).package_review_signatures_by_package_digest
        r.package.digest).bind
      (fun m => lookupA m (PkgVersionReviewId.ofReview r)) =
      some (match (lookupA db.package_review_signatures_by_package_digest
            r.package.digest).bind
          (fun m => lookupA m (PkgVersionReviewId.ofReview r)) with
        | Option.none => { date := r.date, value := s }
        | some e => e.update_to_more_recent { date := r.date, value := s }) := by
  rw [add_package_review_digest_field]
  simp only [lookupA_upsertA_self]
  cases hin : lookupA db.package_review_signatures_by_package_digest
      r.package.digest with
  | none => simp [lookupA_upsertA_self, lookupA]
  | some m =>
    cases h2 : lookupA m (PkgVersionReviewId.ofReview r) <;>
      simp [lookupA_upsertA_self, h2]

theorem add_package_review_alt_lookup (db : ProofDB) (r : PackageReview)
    (s : Signature) (ff : FetchSource) :
    (lookupA (db.add_package_review r s ff).package_alternatives
        r.package.id.id).bind (fun m => lookupA m r.from_.id) =
      some (match (lookupA db.package_alternatives r.package.id.id).bind
          (fun m => lookupA m r.from_.id) with
        | Option.none => { date := r.date, value := s }
        | some e => e.update_to_more_recent { date := r.date, value := s }) := by
  rw [add_package_review_alt_field]
  simp only [lookupA_upsertA_self]
  cases hin : lookupA db.package_alternatives r.package.id.id with
  | none => simp [lookupA_upsertA_self, lookupA]
  | some m =>
    cases h2 : lookupA m r.from_.id <;> simp [lookupA_upsertA_self, h2]

theorem add_package_review_flags_lookup (db : ProofDB) (r : PackageReview)
    (s : Signature) (ff : FetchSource) :
    (lookupA (db.add_package_review r s ff).package_flags
        r.package.id.id).bind (fun m => lookupA m r.from_.id) =
      some (match (lookupA db.package_flags r.package.id.id).bind
          (fun m => lookupA m r.from_.id) with
        | Option.none => { date := r.date, value := r.flags }
        | some e => e.update_to_more_recent
            { date := r.date, value := r.flags }) := by
  rw [add_package_review_flags_field]
  simp only [lookupA_upsertA_self]
  cases hin : lookupA db.package_flags r.package.id.id with
  | none => simp [lookupA_upsertA_self, lookupA]
  | some m =>
    cases h2 : lookupA m r.from_.id <;> simp [lookupA_upsertA_self, h2]

theorem record_self_url_lookup (db : ProofDB) (d : Nat) (i : Id) (u : Url)
    (ff : FetchSource) :
    (lookupA (db.record_url_from_from_field d { id := i, url := some u }
        ff).url_by_id_self_reported i).map Prod.fst =
      some (match (lookupA db.url_by_id_self_reported i).map Prod.fst with
        | Option.none => { date := d, value := u }
        | some x => x.update_to_more_recent { date := d, value := u }) := by
  rw [record_from_field_self_url, lookupA_upsertA_self]
  cases hl : lookupA db.url_by_id_self_reported i <;> simp [hl]

theorem add_package_review_sig_self_none (db : ProofDB) (r : PackageReview)
    (s : Signature) (ff : FetchSource)
    (h : lookupA db.package_review_signatures_by_pkg_review_id
      (PkgVersionReviewId.ofReview r) = Option.none) :
    lookupA (db.add_package_review r s
        ff).package_review_signatures_by_pkg_review_id
      (PkgVersionReviewId.ofReview r) =
      some { date := r.date, value := s } := by
  rw [add_package_review_sig_lookup, h]

theorem add_package_review_sig_self_some (db : ProofDB) (r : PackageReview)
    (s : Signature) (ff : FetchSource) (x : TimestampedSignature)
    (h : lookupA db.package_review_signatures_by_pkg_review_id
      (PkgVersionReviewId.ofReview r) = some x) :
    lookupA (db.add_package_review r s
        ff).package_review_signatures_by_pkg_review_id
      (PkgVersionReviewId.ofReview r) =
      some (x.update_to_more_recent { date := r.date, value := s }) := by
  rw [add_package_review_sig_lookup, h]

theorem add_package_review_sig_other (db : ProofDB) (r : PackageReview)
    (s : Signature) (ff : FetchSource) (k : PkgVersionReviewId)
    (hk : k ≠ PkgVersionReviewId.ofReview r) :
    lookupA (db.add_package_review r s
        ff).package_review_signatures_by_pkg_review_id k =
      lookupA db.package_review_signatures_by_pkg_review_id k := by
  rw [add_package_review_sig_field, lookupA_upsertA_other _ _ _ _ _ hk]

theorem add_package_review_digest_self_none (db : ProofDB)
    (r : PackageReview) (s : Signature) (ff : FetchSource)
    (h : (lookupA db.package_review_signatures_by_package_digest
        r.package.digest).bind
      (fun m => lookupA m (PkgVersionReviewId.ofReview r)) = Option.none) :
    (lookupA (db.add_package_review r s
        ff).package_review_signatures_by_package_digest
        r.package.digest).bind
      (fun m => lookupA m (PkgVersionReviewId.ofReview r)) =
      some { date := r.date, value := s } := by
  rw [add_package_review_digest_lookup, h]

theorem add_package_review_digest_self_some (db : ProofDB)
    (r : PackageReview) (s : Signature) (ff : FetchSource)
    (x : TimestampedSignature)
    (h : (lookupA db.package_review_signatures_by_package_digest
        r.package.digest).bind
      (fun m => lookupA m (PkgVersionReviewId.ofReview r)) = some x) :
    (lookupA (db.add_package_review r s
        ff).package_review_signatures_by_package_digest
        r.package.digest).bind
      (fun m => lookupA m (PkgVersionReviewId.ofReview r)) =
      some (x.update_to_more_recent { date := r.date, value := s }) := by
  rw [add_package_review_digest_lookup, h]

theorem add_package_review_digest_other (db : ProofDB) (r : PackageReview)
    (s : Signature) (ff : FetchSource) (k : Digest × PkgVersionReviewId)
    (hk : k ≠ (r.package.digest, PkgVersionReviewId.ofReview r)) :
    (lookupA (db.add_package_review r s
        ff).package_review_signatures_by_package_digest k.1).bind
      (fun m => lookupA m k.2) =
      (lookupA db.package_review_signatures_by_package_digest k.1).bind
        (fun m => lookupA m k.2) := by
  rw [add_package_review_digest_field]
  by_cases hf : k.1 = r.package.digest
  · have ht : k.2 ≠ PkgVersionReviewId.ofReview r := by
      intro hteq
      apply hk
      rw [← hf, ← hteq]
    rw [hf, lookupA_upsertA_self]
    cases hin : lookupA db.package_review_signatures_by_package_digest
        r.package.digest with
    | none => simp [lookupA, upsertA, Ne.symm ht]
    | some m => simp [lookupA_upsertA_other _ _ _ _ _ ht]
  · rw [lookupA_upsertA_other _ _ _ _ _ hf]

theorem add_package_review_alt_self_none (db : ProofDB) (r : PackageReview)
    (s : Signature) (ff : FetchSource)
    (h : (lookupA db.package_alternatives r.package.id.id).bind
      (fun m => lookupA m r.from_.id) = Option.none) :
    (lookupA (db.add_package_review r s ff).package_alternatives
        r.package.id.id).bind (fun m => lookupA m r.from_.id) =
      some { date := r.date, value := s } := by
  rw [add_package_review_alt_lookup, h]

theorem add_package_review_alt_self_some (db : ProofDB) (r : PackageReview)
    (s : Signature) (ff : FetchSource) (x : TimestampedSignature)
    (h : (lookupA db.package_alternatives r.package.id.id).bind
      (fun m => lookupA m r.from_.id) = some x) :
    (lookupA (db.add_package_review r s ff).package_alternatives
        r.package.id.id).bind (fun m => lookupA m r.from_.id) =
      some (x.update_to_more_recent { date := r.date, value := s }) := by
  rw [add_package_review_alt_lookup, h]

theorem add_package_review_alt_other (db : ProofDB) (r : PackageReview)
    (s : Signature) (ff : FetchSource) (k : PackageId × Id)
    (hk : k ≠ (r.package.id.id, r.from_.id)) :
    (lookupA (db.add_package_review r s ff).package_alternatives k.1).bind
      (fun m => lookupA m k.2) =
      (lookupA db.package_alternatives k.1).bind (fun m => lookupA m k.2) := by
  rw [add_package_review_alt_field]
  by_cases hf : k.1 = r.package.id.id
  · have ht : k.2 ≠ r.from_.id := by
      intro hteq
      apply hk
      rw [← hf, ← hteq]
    rw [hf, lookupA_upsertA_self]
    cases hin : lookupA db.package_alternatives r.package.id.id with
    | none => simp [lookupA, upsertA, Ne.symm ht]
    | some m => simp [lookupA_upsertA_other _ _ _ _ _ ht]
  · rw [lookupA_upsertA_other _ _ _ _ _ hf]

theorem add_package_review_flags_self_none (db : ProofDB)
    (r : PackageReview) (s : Signature) (ff : FetchSource)
    (h : (lookupA db.package_flags r.package.id.id).bind
      (fun m => lookupA m r.from_.id) = Option.none) :
    (lookupA (db.add_package_review r s ff).package_flags
        r.package.id.id).bind (fun m => lookupA m r.from_.id) =
      some { date := r.date, value := r.flags } := by
  rw [add_package_review_flags_lookup, h]

theorem add_package_review_flags_self_some (db : ProofDB)
    (r : PackageReview) (s : Signature) (ff : FetchSource)
    (x : TimestampedFlags)
    (h : (lookupA db.package_flags r.package.id.id).bind
      (fun m => lookupA m r.from_.id) = some x) :
    (lookupA (db.add_package_review r s ff).package_flags
        r.package.id.id).bind (fun m => lookupA m r.from_.id) =
      some (x.update_to_more_recent { date := r.date, value := r.flags }) := by
  rw [add_package_review_flags_lookup, h]

theorem add_package_review_flags_other (db : ProofDB) (r : PackageReview)
    (s : Signature) (ff : FetchSource) (k : PackageId × Id)
    (hk : k ≠ (r.package.id.id, r.from_.id)) :
    (lookupA (db.add_package_review r s ff).package_flags k.1).bind
      (fun m => lookupA m k.2) =
      (lookupA db.package_flags k.1).bind (fun m => lookupA m k.2) := by
  rw [add_package_review_flags_field]
  by_cases hf : k.1 = r.package.id.id
  · have ht : k.2 ≠ r.from_.id := by
      intro hteq
      apply hk
      rw [← hf, ← hteq]
    rw [hf, lookupA_upsertA_self]
    cases hin : lookupA db.package_flags r.package.id.id with
    | none => simp [lookupA, upsertA, Ne.symm ht]
    | some m => simp [lookupA_upsertA_other _ _ _ _ _ ht]
  · rw [lookupA_upsertA_other _ _ _ _ _ hf]

theorem record_self_url_self_none (db : ProofDB) (d : Nat) (i : Id)
    (u : Url) (ff : FetchSource)
    (h : (lookupA db.url_by_id_self_reported i).map Prod.fst =
      Option.none) :
    (lookupA (db.record_url_from_from_field d { id := i, url := some u }
        ff).url_by_id_self_reported i).map Prod.fst =
      some { date := d, value := u } := by
  rw [record_self_url_lookup, h]

theorem record_self_url_self_some (db : ProofDB) (d : Nat) (i : Id)
    (u : Url) (ff : FetchSource) (x : TimestampedUrl)
    (h : (lookupA db.url_by_id_self_reported i).map Prod.fst = some x) :
    (lookupA (db.record_url_from_from_field d { id := i, url := some u }
        ff).url_by_id_self_reported i).map Prod.fst =
      some (x.update_to_more_recent { date := d, value := u }) := by
  rw [record_self_url_lookup, h]

theorem record_self_url_other (db : ProofDB) (d : Nat) (i : Id) (u : Url)
    (ff : FetchSource) (j : Id) (hj : j ≠ i) :
    (lookupA (db.record_url_from_from_field d { id := i, url := some u }
        ff).url_by_id_self_reported j).map Prod.fst =
      (lookupA db.url_by_id_self_reported j).map Prod.fst := by
  rw [record_from_field_self_url, lookupA_upsertA_other _ _ _ _ _ hj]


/-- Claim C4 (amended): for every (key, author) pair stored through the
update_to_more_recent merge -- the trust edges, the review signatures
(indexed both by review id and by package digest), the per-author package
alternatives and flags, and the self-reported URLs -- the stored Timestamped
value carries the maximum timestamp among all ingested entries for that
pair; the url_by_id_others map instead keeps the first ingested entry for
each Id (entry().or_insert_with never overwrites). -/
theorem timestamped_store_monotonicity :
    (∀ (ops : List RawTrustOp) (f t : Id) e,
      lookup2 (buildTrustDB ops) f t = some e →
      e.date ∈ datesFor ops f t ∧ ∀ d ∈ datesFor ops f t, d ≤ e.date) ∧
    (∀ (revs : List (PackageReview × Signature × FetchSource))
        (k : PkgVersionReviewId) x,
      lookupA (buildReviewDB
          revs).package_review_signatures_by_pkg_review_id k = some x →
      x.date ∈ eventDates (fun rv => PkgVersionReviewId.ofReview rv.1)
          (fun rv => rv.1.date) revs k ∧
      ∀ d ∈ eventDates (fun rv => PkgVersionReviewId.ofReview rv.1)
          (fun rv => rv.1.date) revs k, d ≤ x.date) ∧
    (∀ (revs : List (PackageReview × Signature × FetchSource))
        (k : Digest × PkgVersionReviewId) x,
      (lookupA (buildReviewDB
          revs).package_review_signatures_by_package_digest k.1).bind
        (fun m => lookupA m k.2) = some x →
      x.date ∈ eventDates
          (fun rv => (rv.1.package.digest, PkgVersionReviewId.ofReview rv.1))
          (fun rv => rv.1.date) revs k ∧
      ∀ d ∈ eventDates
          (fun rv => (rv.1.package.digest, PkgVersionReviewId.ofReview rv.1))
          (fun rv => rv.1.date) revs k, d ≤ x.date) ∧
    (∀ (revs : List (PackageReview × Signature × FetchSource))
        (k : PackageId × Id) x,
      (lookupA (buildReviewDB revs).package_alternatives k.1).bind
        (fun m => lookupA m k.2) = some x →
      x.date ∈ eventDates (fun rv => (rv.1.package.id.id, rv.1.from_.id))
          (fun rv => rv.1.date) revs k ∧
      ∀ d ∈ eventDates (fun rv => (rv.1.package.id.id, rv.1.from_.id))
          (fun rv => rv.1.date) revs k, d ≤ x.date) ∧
    (∀ (revs : List (PackageReview × Signature × FetchSource))
        (k : PackageId × Id) x,
      (lookupA (buildReviewDB revs).package_flags k.1).bind
        (fun m => lookupA m k.2) = some x →
      x.date ∈ eventDates (fun rv => (rv.1.package.id.id, rv.1.from_.id))
          (fun rv => rv.1.date) revs k ∧
      ∀ d ∈ eventDates (fun rv => (rv.1.package.id.id, rv.1.from_.id))
          (fun rv => rv.1.date) revs k, d ≤ x.date) ∧
    (∀ (obs : List (Nat × Id × Url × FetchSource)) (i : Id) x,
      (lookupA (buildSelfDB obs).url_by_id_self_reported i).map Prod.fst =
        some x →
      x.date ∈ eventDates (fun o => o.2.1) (fun o => o.1) obs i ∧
      ∀ d ∈ eventDates (fun o => o.2.1) (fun o => o.1) obs i, d ≤ x.date) ∧
    (∀ (ops : List (Nat × PublicId)) (id : Id),
      lookupA (buildOthersDB ops ProofDB.new).url_by_id_reported_by_others id =
        firstToFieldUrl ops id) := by
  refine ⟨fun ops f t e he => (stored_trust_edge_max ops f t).2 e he,
    ?_, ?_, ?_, ?_, ?_,
    fun ops id => by
      rw [buildOthersDB_lookup]
      simp [ProofDB.new, lookupA]⟩
  · intro revs k x hx
    have hs := storeMax
      (fun d (rv : PackageReview × Signature × FetchSource) =>
        d.add_package_review rv.1 rv.2.1 rv.2.2)
      (fun (d : ProofDB) k =>
        lookupA d.package_review_signatures_by_pkg_review_id k)
      (fun rv => PkgVersionReviewId.ofReview rv.1)
      (fun rv => rv.1.date) (fun rv => rv.2.1) ProofDB.new
      (fun d rv h => add_package_review_sig_self_none d rv.1 rv.2.1 rv.2.2 h)
      (fun d rv x0 h =>
        add_package_review_sig_self_some d rv.1 rv.2.1 rv.2.2 x0 h)
      (fun d rv k hk => add_package_review_sig_other d rv.1 rv.2.1 rv.2.2 k hk)
      (fun k => rfl) revs k
    exact hs.2 x hx
  · intro revs k x hx
    have hs := storeMax
      (fun d (rv : PackageReview × Signature × FetchSource) =>
        d.add_package_review rv.1 rv.2.1 rv.2.2)
      (fun (d : ProofDB) k =>
        (lookupA d.package_review_signatures_by_package_digest k.1).bind
          (fun m => lookupA m k.2))
      (fun rv => (rv.1.package.digest, PkgVersionReviewId.ofReview rv.1))
      (fun rv => rv.1.date) (fun rv => rv.2.1) ProofDB.new
      (fun d rv h =>
        add_package_review_digest_self_none d rv.1 rv.2.1 rv.2.2 h)
      (fun d rv x0 h =>
        add_package_review_digest_self_some d rv.1 rv.2.1 rv.2.2 x0 h)
      (fun d rv k hk =>
        add_package_review_digest_other d rv.1 rv.2.1 rv.2.2 k hk)
      (fun k => rfl) revs k
    exact hs.2 x hx
  · intro revs k x hx
    have hs := storeMax
      (fun d (rv : PackageReview × Signature × FetchSource) =>
        d.add_package_review rv.1 rv.2.1 rv.2.2)
      (fun (d : ProofDB) k => (lookupA d.package_alternatives k.1).bind
        (fun m => lookupA m k.2))
      (fun rv => (rv.1.package.id.id, rv.1.from_.id))
      (fun rv => rv.1.date) (fun rv => rv.2.1) ProofDB.new
      (fun d rv h => add_package_review_alt_self_none d rv.1 rv.2.1 rv.2.2 h)
      (fun d rv x0 h =>
        add_package_review_alt_self_some d rv.1 rv.2.1 rv.2.2 x0 h)
      (fun d rv k hk => add_package_review_alt_other d rv.1 rv.2.1 rv.2.2 k hk)
      (fun k => rfl) revs k
    exact hs.2 x hx
  · intro revs k x hx
    have hs := storeMax
      (fun d (rv : PackageReview × Signature × FetchSource) =>
        d.add_package_review rv.1 rv.2.1 rv.2.2)
      (fun (d : ProofDB) k => (lookupA d.package_flags k.1).bind
        (fun m => lookupA m k.2))
      (fun rv => (rv.1.package.id.id, rv.1.from_.id))
      (fun rv => rv.1.date) (fun rv => rv.1.flags) ProofDB.new
      (fun d rv h => add_package_review_flags_self_none d rv.1 rv.2.1 rv.2.2 h)
      (fun d rv x0 h =>
        add_package_review_flags_self_some d rv.1 rv.2.1 rv.2.2 x0 h)
      (fun d rv k hk =>
        add_package_review_flags_other d rv.1 rv.2.1 rv.2.2 k hk)
      (fun k => rfl) revs k
    exact hs.2 x hx
  · intro obs i x hx
    have hs := storeMax
      (fun d (o : Nat × Id × Url × FetchSource) =>
        d.record_url_from_from_field o.1
          { id := o.2.1, url := some o.2.2.1 } o.2.2.2)
      (fun (d : ProofDB) i =>
        (lookupA d.url_by_id_self_reported i).map Prod.fst)
      (fun o => o.2.1) (fun o => o.1) (fun o => o.2.2.1) ProofDB.new
      (fun d o h => record_self_url_self_none d o.1 o.2.1 o.2.2.1 o.2.2.2 h)
      (fun d o x0 h =>
        record_self_url_self_some d o.1 o.2.1 o.2.2.1 o.2.2.2 x0 h)
      (fun d o j hj => record_self_url_other d o.1 o.2.1 o.2.2.1 o.2.2.2 j hj)
      (fun i => rfl) obs i
    exact hs.2 x hx

/-- Witness for C4 (amended) at a concrete two-event history for one pair. -/
theorem timestamped_store_monotonicity_witness :
    (10 : Nat) ∈ datesFor
        [{ from_ := 1, to_ := 0, date := 5, trust := TrustLevel.low },
         { from_ := 1, to_ := 0, date := 10, trust := TrustLevel.high }] 1 0 ∧
    ∀ d ∈ datesFor
        [{ from_ := 1, to_ := 0, date := 5, trust := TrustLevel.low },
         { from_ := 1, to_ := 0, date := 10, trust := TrustLevel.high }] 1 0,
      d ≤ 10 := by
  have h := timestamped_store_monotonicity.1
    [{ from_ := 1, to_ := 0, date := 5, trust := TrustLevel.low },
     { from_ := 1, to_ := 0, date := 10, trust := TrustLevel.high }] 1 0
    { date := 10, value := TrustLevel.high } (by decide)
  exact h

/-! ### Claim C10 -/

theorem foldl_add_map {β : Type} (l : List β) (f : β → Nat) (n : Nat) :
    l.foldl (fun c p => c + f p) n = n + (l.map f).sum := by
  induction l generalizing n with
  | nil => simp
  | cons b rest ih =>
    simp only [List.foldl_cons, List.map_cons, List.sum_cons, ih]
    omega

theorem count_eq_sum (db : ProofDB) :
    db.unique_trust_proof_count =
      (db.trust_id_to_id.map (fun p => p.2.length)).sum := by
  unfold ProofDB.unique_trust_proof_count
  rw [foldl_add_map]
  omega

theorem sum_map_upsertA_none [DecidableEq κ] (l : List (κ × α)) (k : κ)
    (g : α → α) (ins : α) (F : α → Nat) (h : lookupA l k = Option.none) :
    ((upsertA l k g ins).map (fun p => F p.2)).sum =
      (l.map (fun p => F p.2)).sum + F ins := by
  induction l with
  | nil => simp [upsertA]
  | cons p rest ih =>
    obtain ⟨k0, w⟩ := p
    by_cases h0 : k0 = k
    · simp [lookupA, h0] at h
    · simp only [lookupA, if_neg h0] at h
      simp only [upsertA, if_neg h0, List.map_cons, List.sum_cons, ih h]
      omega

theorem sum_map_upsertA_some [DecidableEq κ] (l : List (κ × α)) (k : κ)
    (g : α → α) (ins : α) (F : α → Nat) (v : α) (h : lookupA l k = some v) :
    ((upsertA l k g ins).map (fun p => F p.2)).sum + F v =
      (l.map (fun p => F p.2)).sum + F (g v) := by
  induction l with
  | nil => simp [lookupA] at h
  | cons p rest ih =>
    obtain ⟨k0, w⟩ := p
    by_cases h0 : k0 = k
    · simp only [lookupA, if_pos h0, Option.some_inj] at h
      subst h
      simp only [upsertA, if_pos h0, List.map_cons, List.sum_cons]
      omega
    · simp only [lookupA, if_neg h0] at h
      simp only [upsertA, if_neg h0, List.map_cons, List.sum_cons]
      have := ih h
      omega

theorem count_add_trust_raw (db : ProofDB) (f t : Id) (d : Nat)
    (l : TrustLevel) :
    (db.add_trust_raw f t d l).unique_trust_proof_count =
      db.unique_trust_proof_count +
        (if (lookup2 db f t).isSome then 0 else 1) := by
  rw [count_eq_sum, count_eq_sum]
  show ((upsertA db.trust_id_to_id f _ _).map (fun p => p.2.length)).sum = _
  cases hin : lookupA db.trust_id_to_id f with
  | none =>
    rw [sum_map_upsertA_none _ _ _ _ _ hin]
    have : lookup2 db f t = Option.none := by simp [lookup2, hin]
    rw [upsertA_length]
    simp [this, lookupA]
  | some m =>
    have hsum := sum_map_upsertA_some db.trust_id_to_id f
      (fun m => upsertA m t (fun e => e.update_to_more_recent
        { date := d, value := l }) { date := d, value := l })
      (upsertA [] t (fun e => e.update_to_more_recent
        { date := d, value := l }) { date := d, value := l })
      (fun m => m.length) m hin
    have hlen := upsertA_length m t
      (fun e => e.update_to_more_recent { date := d, value := l })
      { date := d, value := l }
    have hl2 : lookup2 db f t = lookupA m t := by simp [lookup2, hin]
    cases h2 : lookupA m t with
    | none =>
      rw [h2] at hlen
      simp only [hl2, h2, Option.isSome_none, Bool.false_eq_true, if_false]
      simp only [hlen] at hsum
      omega
    | some e =>
      rw [h2] at hlen
      simp only [hl2, h2, Option.isSome_some, if_true]
      simp only [hlen] at hsum
      omega

theorem trust_graph_record_url_from_from (db : ProofDB) (date : Nat)
    (pid : PublicId) (fs : FetchSource) :
    (db.record_url_from_from_field date pid fs).trust_id_to_id =
      db.trust_id_to_id := by
  cases h : pid.url <;> simp [ProofDB.record_url_from_from_field, h]

theorem trust_graph_record_url_from_to (db : ProofDB) (date : Nat)
    (pid : PublicId) :
    (db.record_url_from_to_field date pid).trust_id_to_id =
      db.trust_id_to_id := by
  cases h : pid.url <;> simp [ProofDB.record_url_from_to_field, h]

theorem trust_graph_foldl_record_to (ids : List PublicId) (db : ProofDB)
    (date : Nat) :
    ((ids.foldl (fun d to_ => d.record_url_from_to_field date to_)
      db).trust_id_to_id) = db.trust_id_to_id := by
  induction ids generalizing db with
  | nil => rfl
  | cons pid rest ih =>
    simp only [List.foldl_cons, ih, trust_graph_record_url_from_to]

theorem count_foldl_raw_le (ids : List PublicId) (db : ProofDB) (f : Id)
    (date : Nat) (trust : TrustLevel) :
    (ids.foldl (fun d to_ => d.add_trust_raw f to_.id date trust)
        db).unique_trust_proof_count ≤
      db.unique_trust_proof_count + ids.length := by
  induction ids generalizing db with
  | nil => simp
  | cons pid rest ih =>
    simp only [List.foldl_cons, List.length_cons]
    refine le_trans (ih _) ?_
    rw [count_add_trust_raw]
    by_cases h : (lookup2 db f pid.id).isSome <;> simp [h] <;> omega

theorem lookup2_isSome_add_trust_raw (db : ProofDB) (f' t' : Id) (d : Nat)
    (l : TrustLevel) (f t : Id) (h : (lookup2 db f t).isSome = true) :
    (lookup2 (db.add_trust_raw f' t' d l) f t).isSome = true := by
  by_cases hp : f = f' ∧ t = t'
  · obtain ⟨rfl, rfl⟩ := hp
    rw [lookup2_add_trust_raw_self]
    rfl
  · rw [lookup2_add_trust_raw_other _ _ _ _ _ _ _ hp]
    exact h

theorem count_foldl_raw_present (ids : List PublicId) (db : ProofDB)
    (f : Id) (date : Nat) (trust : TrustLevel)
    (h : ∀ pid ∈ ids, (lookup2 db f pid.id).isSome = true) :
    (ids.foldl (fun d to_ => d.add_trust_raw f to_.id date trust)
        db).unique_trust_proof_count = db.unique_trust_proof_count := by
  induction ids generalizing db with
  | nil => rfl
  | cons pid rest ih =>
    simp only [List.foldl_cons]
    rw [ih]
    · rw [count_add_trust_raw]
      simp [h pid (List.mem_cons_self _ _)]
    · intro q hq
      exact lookup2_isSome_add_trust_raw _ _ _ _ _ _ _
        (h q (List.mem_cons_of_mem _ hq))

theorem distinctPairs_snoc (ops : List RawTrustOp) (o : RawTrustOp) :
    distinctPairs (ops ++ [o]) =
      insertOnce (o.from_, o.to_) (distinctPairs ops) := by
  simp [distinctPairs, List.foldl_append]

theorem mem_foldl_insertOnce (ops : List RawTrustOp)
    (acc : List (Id × Id)) (p : Id × Id) :
    p ∈ ops.foldl (fun a o => insertOnce (o.from_, o.to_) a) acc ↔
      p ∈ acc ∨ p ∈ ops.map (fun o => (o.from_, o.to_)) := by
  induction ops generalizing acc with
  | nil => simp
  | cons o rest ih =>
    simp only [List.foldl_cons, List.map_cons, List.mem_cons, ih,
      mem_insertOnce]
    tauto

theorem mem_distinctPairs (ops : List RawTrustOp) (p : Id × Id) :
    p ∈ distinctPairs ops ↔ p ∈ ops.map (fun o => (o.from_, o.to_)) := by
  unfold distinctPairs
  rw [mem_foldl_insertOnce]
  simp

theorem lookup2_buildTrustDB_isSome (ops : List RawTrustOp) (f t : Id) :
    (lookup2 (buildTrustDB ops) f t).isSome = true ↔
      (f, t) ∈ ops.map (fun o => (o.from_, o.to_)) := by
  induction ops using List.reverseRecOn with
  | nil => simp [buildTrustDB, lookup2, ProofDB.new, lookupA]
  | append_singleton ops o ih =>
    rw [buildTrustDB_snoc]
    by_cases hp : f = o.from_ ∧ t = o.to_
    · obtain ⟨rfl, rfl⟩ := hp
      rw [lookup2_add_trust_raw_self]
      simp
    · rw [lookup2_add_trust_raw_other _ _ _ _ _ _ _ hp]
      rw [ih]
      simp only [List.map_append, List.map_cons, List.map_nil,
        List.mem_append, List.mem_singleton]
      constructor
      · exact Or.inl
      · rintro (hm | hm)
        · exact hm
        · exact absurd ⟨congrArg Prod.fst hm, congrArg Prod.snd hm⟩ hp

theorem count_buildTrustDB (ops : List RawTrustOp) :
    (buildTrustDB ops).unique_trust_proof_count =
      (distinctPairs ops).length := by
  induction ops using List.reverseRecOn with
  | nil => rfl
  | append_singleton ops o ih =>
    rw [buildTrustDB_snoc, count_add_trust_raw, ih, distinctPairs_snoc,
      insertOnce_length]
    by_cases hm : (o.from_, o.to_) ∈ distinctPairs ops
    · have := (mem_distinctPairs ops _).mp hm
      have hs := (lookup2_buildTrustDB_isSome ops o.from_ o.to_).mpr this
      simp [hm, hs]
    · have : ¬ (o.from_, o.to_) ∈ ops.map (fun o => (o.from_, o.to_)) :=
        fun hc => hm ((mem_distinctPairs ops _).mpr hc)
      have hs : ¬ (lookup2 (buildTrustDB ops) o.from_ o.to_).isSome = true :=
        fun hc => this ((lookup2_buildTrustDB_isSome ops o.from_ o.to_).mp hc)
      simp [hm, hs]

/-- Claim C10: unique_trust_proof_count counts distinct (from, to) pairs
holding a trust edge, not ingested trust proofs: from a fresh store it
equals the number of distinct pairs ever ingested; a single trust proof with
n subjects increases it by at most n; and re-ingesting a proof whose pairs
all already hold an edge does not increase it at all. -/
theorem unique_trust_proof_count_spec :
    (∀ ops : List RawTrustOp,
      (buildTrustDB ops).unique_trust_proof_count =
        (distinctPairs ops).length) ∧
    (∀ (db : ProofDB) (t : TrustProof) (fs : FetchSource),
      (db.add_trust t fs).unique_trust_proof_count ≤
        db.unique_trust_proof_count + t.ids.length) ∧
    (∀ (db : ProofDB) (t : TrustProof) (fs : FetchSource),
      (∀ pid ∈ t.ids, (lookup2 db t.from_.id pid.id).isSome = true) →
      (db.add_trust t fs).unique_trust_proof_count =
        db.unique_trust_proof_count) := by
  refine ⟨count_buildTrustDB, ?_, ?_⟩
  · intro db t fs
    unfold ProofDB.add_trust
    rw [count_eq_sum, trust_graph_foldl_record_to]
    have hurl : (db.record_url_from_from_field t.date t.from_
        fs).unique_trust_proof_count = db.unique_trust_proof_count := by
      rw [count_eq_sum, trust_graph_record_url_from_from, count_eq_sum]
    calc ((t.ids.foldl (fun d to_ =>
            d.add_trust_raw t.from_.id to_.id t.date t.trust)
            (db.record_url_from_from_field t.date t.from_
              fs)).trust_id_to_id.map (fun p => p.2.length)).sum
        = (t.ids.foldl (fun d to_ =>
            d.add_trust_raw t.from_.id to_.id t.date t.trust)
            (db.record_url_from_from_field t.date t.from_
              fs)).unique_trust_proof_count := (count_eq_sum _).symm
      _ ≤ (db.record_url_from_from_field t.date t.from_
            fs).unique_trust_proof_count + t.ids.length :=
          count_foldl_raw_le _ _ _ _ _
      _ = db.unique_trust_proof_count + t.ids.length := by rw [hurl]
  · intro db t fs h
    unfold ProofDB.add_trust
    rw [count_eq_sum, trust_graph_foldl_record_to, ← count_eq_sum]
    have hurl : (db.record_url_from_from_field t.date t.from_
        fs).unique_trust_proof_count = db.unique_trust_proof_count := by
      rw [count_eq_sum, trust_graph_record_url_from_from, ← count_eq_sum]
    rw [count_foldl_raw_present, hurl]
    intro pid hpid
    have := h pid hpid
    simpa [lookup2, trust_graph_record_url_from_from] using this

/-! ### Claim C1: lemmas about the traversal -/

theorem lookupA_mem [DecidableEq κ] (l : List (κ × α)) (k : κ) (v : α)
    (h : lookupA l k = some v) : (k, v) ∈ l := by
  induction l with
  | nil => simp [lookupA] at h
  | cons p rest ih =>
    obtain ⟨k0, w⟩ := p
    by_cases h0 : k0 = k
    · subst h0
      simp [lookupA] at h
      subst h
      exact List.mem_cons_self _ _
    · simp only [lookupA, if_neg h0] at h
      exact List.mem_cons_of_mem _ (ih h)

theorem lookupA_eq_none [DecidableEq κ] (l : List (κ × α)) (k : κ) :
    lookupA l k = Option.none ↔ k ∉ l.map Prod.fst := by
  induction l with
  | nil => simp [lookupA]
  | cons p rest ih =>
    obtain ⟨k0, w⟩ := p
    by_cases h0 : k0 = k
    · subst h0
      simp [lookupA]
    · simp [lookupA, if_neg h0, ih, Ne.symm h0]

theorem upsertA_keys [DecidableEq κ] (l : List (κ × α)) (k : κ) (f : α → α)
    (ins : α) :
    (upsertA l k f ins).map Prod.fst =
      if (lookupA l k).isSome then l.map Prod.fst
      else l.map Prod.fst ++ [k] := by
  induction l with
  | nil => simp [upsertA, lookupA]
  | cons p rest ih =>
    obtain ⟨k0, w⟩ := p
    by_cases h0 : k0 = k
    · subst h0
      simp [upsertA, lookupA]
    · simp only [upsertA, if_neg h0, List.map_cons, lookupA, ih]
      cases h : (lookupA rest k).isSome <;> simp [h]

theorem nodup_snoc {β : Type} (l : List β) (a : β) (h : a ∉ l)
    (hn : l.Nodup) : (l ++ [a]).Nodup := by
  simp [List.nodup_append, hn, h]

theorem is_distrusted_eq_false (ts : TrustSet) (z : Id)
    (h : ts.is_distrusted z = false) :
    lookupA ts.distrusted z = Option.none := by
  unfold TrustSet.is_distrusted at h
  cases hh : lookupA ts.distrusted z with
  | none => rfl
  | some v =>
    rw [hh] at h
    simp at h

theorem edge_target_mem (db : ProofDB) (z : Id) (e : TrustLevel × Id)
    (he : e ∈ db.get_trust_list_of_id z) : e.2 ∈ wotTargets db := by
  unfold ProofDB.get_trust_list_of_id at he
  cases hl : lookupA db.trust_id_to_id z with
  | none =>
    rw [hl] at he
    cases he
  | some m =>
    rw [hl] at he
    obtain ⟨p, hp, hpe⟩ := List.mem_map.mp he
    have hmem := lookupA_mem _ _ _ hl
    unfold wotTargets
    rw [List.mem_flatMap]
    refine ⟨(z, m), hmem, ?_⟩
    rw [← hpe]
    exact List.mem_map_of_mem _ hp

theorem record_trusted_distrusted (ts : TrustSet) (s r : Id) (dist : Nat)
    (lvl : TrustLevel) :
    (ts.record_trusted_id s r dist lvl).2.distrusted = ts.distrusted := by
  unfold TrustSet.record_trusted_id
  cases lookupA ts.trusted s <;> rfl

theorem record_trusted_trusted_other (ts : TrustSet) (s r : Id) (dist : Nat)
    (lvl : TrustLevel) (z : Id) (hz : z ≠ s) :
    lookupA (ts.record_trusted_id s r dist lvl).2.trusted z =
      lookupA ts.trusted z := by
  unfold TrustSet.record_trusted_id
  cases lookupA ts.trusted s
  · exact lookupA_setA_other _ _ _ _ hz
  · exact lookupA_setA_other _ _ _ _ hz

theorem rootOK_record_trusted (root : Id) (ts : TrustSet)
    (subject reported_by : Id) (distance : Nat) (lvl : TrustLevel)
    (h : rootOK root ts) :
    rootOK root (ts.record_trusted_id subject reported_by distance lvl).2 := by
  obtain ⟨d, hd, hdist, hlvl⟩ := h
  by_cases hs : subject = root
  · subst hs
    unfold TrustSet.record_trusted_id
    rw [hd]
    simp only
    unfold rootOK
    refine ⟨_, lookupA_setA_self _ _ _, ?_, ?_⟩
    · simp only [hdist]
      simp
    · rw [hlvl]
      have hn : ¬ TrustLevel.high < lvl := by
        change ¬ ((4 : Nat) < lvl.toNat)
        exact Nat.not_lt.mpr (toNat_le_four lvl)
      simp [hn]
  · exact ⟨d, by
      rw [record_trusted_trusted_other _ _ _ _ _ _ (fun hh => hs hh.symm)]
      exact hd, hdist, hlvl⟩

/-- Control-flow shape of one edge step: it either leaves the state
untouched (and a distrust edge can only be skipped this way when the
candidate is already distrusted), or records the candidate distrusted, or
merges the candidate as trusted within the distance bound, pushing a visit
when anything changed. -/
theorem process_edge_cases (params : TrustDistanceParams) (current : Visit)
    (st : TrustSet × List Visit) (e : TrustLevel × Id) :
    (trust_set_process_edge params current st e = st ∧
      (e.1 = TrustLevel.distrust → st.1.is_distrusted e.2 = true)) ∨
    (st.1.is_distrusted e.2 = false ∧ e.1 = TrustLevel.distrust ∧
      trust_set_process_edge params current st e =
        ((st.1.record_distrusted_id e.2 current.id).2, st.2)) ∨
    (∃ dist, st.1.is_distrusted e.2 = false ∧ dist ≤ params.max_distance ∧
      e.1 ≠ TrustLevel.distrust ∧
      trust_set_process_edge params current st e =
        ((st.1.record_trusted_id e.2 current.id dist
            (tlMin e.1 current.effective_trust_level)).2,
          if (st.1.record_trusted_id e.2 current.id dist
              (tlMin e.1 current.effective_trust_level)).1
          then insertOnce
            { effective_trust_level := tlMin e.1 current.effective_trust_level,
              distance := dist, id := e.2 } st.2
          else st.2)) := by
  unfold trust_set_process_edge
  by_cases h1 : st.1.is_distrusted e.2 = true
  · exact Or.inl ⟨by simp [h1], fun _ => h1⟩
  · have h1f : st.1.is_distrusted e.2 = false := by
      cases hb : st.1.is_distrusted e.2
      · rfl
      · exact absurd hb h1
    by_cases h2 : e.1 = TrustLevel.distrust
    · refine Or.inr (Or.inl ⟨h1f, h2, ?_⟩)
      simp [h1f, h2]
    · by_cases h3 : tlMin e.1 current.effective_trust_level = TrustLevel.none
      · refine Or.inl ⟨?_, fun hc => absurd hc h2⟩
        simp [h1f, h2, h3]
      · cases h4 : params.distance_by_level
            (tlMin e.1 current.effective_trust_level) with
        | none =>
          refine Or.inl ⟨?_, fun hc => absurd hc h2⟩
          simp [h1f, h2, h3, h4]
        | some dd =>
          by_cases h5 : current.distance + dd > params.max_distance
          · refine Or.inl ⟨?_, fun hc => absurd hc h2⟩
            simp [h1f, h2, h3, h4, h5]
          · refine Or.inr (Or.inr ⟨current.distance + dd, h1f, by omega, h2, ?_⟩)
            by_cases hr : (st.1.record_trusted_id e.2 current.id
                (current.distance + dd)
                (tlMin e.1 current.effective_trust_level)).1 = true <;>
              simp [h1f, h2, h3, h4, h5, hr]

/-- Per-edge facts: the distrusted map only grows (by at most the candidate
key), and a root entry at High@0 survives unless the distrusted map grew. -/
theorem process_edge_facts (root : Id) (params : TrustDistanceParams)
    (current : Visit) (st : TrustSet × List Visit) (e : TrustLevel × Id) :
    st.1.distrusted.length ≤
      (trust_set_process_edge params current st e).1.distrusted.length ∧
    (∀ z, (lookupA st.1.distrusted z).isSome = true →
      (lookupA (trust_set_process_edge params current st e).1.distrusted
        z).isSome = true) ∧
    (distrustedKeys (trust_set_process_edge params current st e).1 =
        distrustedKeys st.1 ∨
      (e.2 ∉ distrustedKeys st.1 ∧
        distrustedKeys (trust_set_process_edge params current st e).1 =
          distrustedKeys st.1 ++ [e.2])) ∧
    (rootOK root st.1 →
      rootOK root (trust_set_process_edge params current st e).1 ∨
        st.1.distrusted.length <
          (trust_set_process_edge params current st e).1.distrusted.length) := by
  rcases process_edge_cases params current st e with
    ⟨heq, _⟩ | ⟨hnone, _, heq⟩ | ⟨dist, hnone, _, _, heq⟩
  · rw [heq]
    exact ⟨le_refl _, fun z hz => hz, Or.inl rfl, fun h => Or.inl h⟩
  · have hl := is_distrusted_eq_false _ _ hnone
    rw [heq]
    simp only [TrustSet.record_distrusted_id]
    refine ⟨?_, ?_, ?_, ?_⟩
    · rw [upsertA_length]
      simp [hl]
    · intro z hz
      by_cases hze : z = e.2
      · subst hze
        rw [hl] at hz
        simp at hz
      · rw [lookupA_upsertA_other _ _ _ _ _ hze]
        exact hz
    · right
      constructor
      · exact (lookupA_eq_none _ _).mp hl
      · unfold distrustedKeys
        simp only
        rw [upsertA_keys]
        simp [hl]
    · intro _
      right
      rw [upsertA_length]
      simp [hl]
  · rw [heq]
    refine ⟨?_, ?_, ?_, fun h => Or.inl (rootOK_record_trusted _ _ _ _ _ _ h)⟩
    · rw [record_trusted_distrusted]
    · intro z hz
      rw [record_trusted_distrusted]
      exact hz
    · left
      unfold distrustedKeys
      rw [record_trusted_distrusted]

/-- The per-edge facts, folded over a list of edges whose targets all lie
in a fixed universe. -/
theorem process_fold_facts (root : Id) (params : TrustDistanceParams)
    (current : Visit) (T : List Id) :
    ∀ (edges : List (TrustLevel × Id)) (st : TrustSet × List Visit),
    (∀ e ∈ edges, e.2 ∈ T) →
    st.1.distrusted.length ≤
      (edges.foldl (trust_set_process_edge params current)
        st).1.distrusted.length ∧
    (∀ z, (lookupA st.1.distrusted z).isSome = true →
      (lookupA (edges.foldl (trust_set_process_edge params current)
        st).1.distrusted z).isSome = true) ∧
    ((distrustedKeys st.1).Nodup →
      (distrustedKeys (edges.foldl (trust_set_process_edge params current)
        st).1).Nodup ∧
      ∀ k ∈ distrustedKeys (edges.foldl (trust_set_process_edge params
        current) st).1, k ∈ distrustedKeys st.1 ∨ k ∈ T) ∧
    (rootOK root st.1 →
      rootOK root (edges.foldl (trust_set_process_edge params current)
        st).1 ∨
      st.1.distrusted.length <
        (edges.foldl (trust_set_process_edge params current)
          st).1.distrusted.length) := by
  intro edges
  induction edges with
  | nil =>
    intro st _
    exact ⟨le_refl _, fun z hz => hz, fun hn => ⟨hn, fun k hk => Or.inl hk⟩,
      fun h => Or.inl h⟩
  | cons e rest ih =>
    intro st hE
    have hrest : ∀ x ∈ rest, x.2 ∈ T :=
      fun x hx => hE x (List.mem_cons_of_mem _ hx)
    have hee : e.2 ∈ T := hE e (List.mem_cons_self _ _)
    have h1 := process_edge_facts root params current st e
    have h2 := ih (trust_set_process_edge params current st e) hrest
    simp only [List.foldl_cons]
    refine ⟨le_trans h1.1 h2.1, ?_, ?_, ?_⟩
    · intro z hz
      exact h2.2.1 z (h1.2.1 z hz)
    · intro hn
      rcases h1.2.2.1 with hk | ⟨hnotin, hk⟩
      · have := h2.2.2.1 (by rw [hk]; exact hn)
        refine ⟨this.1, fun k hkk => ?_⟩
        rcases this.2 k hkk with hi | hi
        · rw [hk] at hi
          exact Or.inl hi
        · exact Or.inr hi
      · have hn' : (distrustedKeys
            (trust_set_process_edge params current st e).1).Nodup := by
          rw [hk]
          exact nodup_snoc _ _ hnotin hn
        have := h2.2.2.1 hn'
        refine ⟨this.1, fun k hkk => ?_⟩
        rcases this.2 k hkk with hi | hi
        · rw [hk] at hi
          rcases List.mem_append.mp hi with hi2 | hi2
          · exact Or.inl hi2
          · cases hi2 with
            | head => exact Or.inr hee
            | tail _ hnil => cases hnil
        · exact Or.inr hi
    · intro h
      rcases h1.2.2.2 h with hok | hlt
      · rcases h2.2.2.2 hok with hok2 | hlt2
        · exact Or.inl hok2
        · exact Or.inr (Nat.lt_of_le_of_lt h1.1 hlt2)
      · exact Or.inr (Nat.lt_of_lt_of_le hlt h2.1)

theorem trust_set_loop_pop_none (db : ProofDB) (params : TrustDistanceParams)
    (initLen fuel : Nat) (pending : List Visit) (prev : TrustLevel)
    (ts : TrustSet) (h : popMin pending = Option.none) :
    trust_set_loop db params initLen (fuel + 1) pending prev ts = ts := by
  unfold trust_set_loop
  rw [h]

theorem trust_set_loop_pop_some (db : ProofDB) (params : TrustDistanceParams)
    (initLen fuel : Nat) (pending : List Visit) (prev : TrustLevel)
    (ts : TrustSet) (current : Visit) (rest : List Visit)
    (h : popMin pending = some (current, rest)) :
    trust_set_loop db params initLen (fuel + 1) pending prev ts =
      if current.effective_trust_level ≠ prev ∧
          initLen ≠ ts.distrusted.length then ts
      else
        trust_set_loop db params initLen fuel
          (trust_set_process_node db params current (ts, rest)).2
          (if current.effective_trust_level = prev
            then current.effective_trust_level else prev)
          (trust_set_process_node db params current (ts, rest)).1 := by
  conv_lhs => rw [trust_set_loop]
  rw [h]

/-- The per-edge facts, carried through the traversal loop. -/
theorem trust_set_loop_facts (db : ProofDB) (params : TrustDistanceParams)
    (initLen : Nat) (root : Id) :
    ∀ (fuel : Nat) (pending : List Visit) (prev : TrustLevel)
      (ts : TrustSet),
    ts.distrusted.length ≤
      (trust_set_loop db params initLen fuel pending prev
        ts).distrusted.length ∧
    ((rootOK root ts ∨ initLen < ts.distrusted.length) →
      initLen ≤ ts.distrusted.length →
      (rootOK root (trust_set_loop db params initLen fuel pending prev ts) ∨
        initLen < (trust_set_loop db params initLen fuel pending prev
          ts).distrusted.length)) ∧
    ((distrustedKeys ts).Nodup →
      (distrustedKeys (trust_set_loop db params initLen fuel pending prev
        ts)).Nodup ∧
      ∀ k ∈ distrustedKeys (trust_set_loop db params initLen fuel pending
        prev ts), k ∈ distrustedKeys ts ∨ k ∈ wotTargets db) := by
  intro fuel
  induction fuel with
  | zero =>
    intro pending prev ts
    exact ⟨le_refl _, fun h _ => h, fun hn => ⟨hn, fun k hk => Or.inl hk⟩⟩
  | succ fuel ih =>
    intro pending prev ts
    cases hpop : popMin pending with
    | none =>
      rw [trust_set_loop_pop_none db params initLen fuel pending prev ts hpop]
      exact ⟨le_refl _, fun h _ => h, fun hn => ⟨hn, fun k hk => Or.inl hk⟩⟩
    | some cr =>
      obtain ⟨current, rest⟩ := cr
      rw [trust_set_loop_pop_some db params initLen fuel pending prev ts
        current rest hpop]
      by_cases hbr : current.effective_trust_level ≠ prev ∧
          initLen ≠ ts.distrusted.length
      · rw [if_pos hbr]
        exact ⟨le_refl _, fun h _ => h, fun hn => ⟨hn, fun k hk => Or.inl hk⟩⟩
      · rw [if_neg hbr]
        have hfold := process_fold_facts root params current (wotTargets db)
          (db.get_trust_list_of_id current.id) (ts, rest)
          (fun e he => edge_target_mem db current.id e he)
        have hloop := ih
          (trust_set_process_node db params current (ts, rest)).2
          (if current.effective_trust_level = prev
            then current.effective_trust_level else prev)
          (trust_set_process_node db params current (ts, rest)).1
        unfold trust_set_process_node at hfold ⊢
        refine ⟨le_trans hfold.1 hloop.1, ?_, ?_⟩
        · intro h hlen
          have hlen2 : initLen ≤ ((db.get_trust_list_of_id
              current.id).foldl (trust_set_process_edge params current)
              (ts, rest)).1.distrusted.length := le_trans hlen hfold.1
          rcases h with hok | hlt
          · rcases hfold.2.2.2 hok with hok2 | hlt2
            · exact hloop.2.1 (Or.inl hok2) hlen2
            · exact hloop.2.1 (Or.inr (Nat.lt_of_le_of_lt hlen hlt2)) hlen2
          · exact hloop.2.1 (Or.inr (Nat.lt_of_lt_of_le hlt hfold.1)) hlen2
        · intro hn
          obtain ⟨hn2, hsub2⟩ := hfold.2.2.1 hn
          obtain ⟨hn3, hsub3⟩ := hloop.2.2 hn2
          refine ⟨hn3, fun k hk => ?_⟩
          rcases hsub3 k hk with hi | hi
          · exact hsub2 k hi
          · exact Or.inr hi

/-- The loop facts instantiated for one run of
calculate_trust_set_internal. -/
theorem calculate_trust_set_internal_eq (db : ProofDB) (root : Id)
    (params : TrustDistanceParams)
    (distrusted : List (Id × DistrustedIdDetails)) :
    db.calculate_trust_set_internal root params distrusted =
      trust_set_loop db params distrusted.length
        (wotPhi db params root (seedTrustSet root distrusted) + 2)
        [{ effective_trust_level := TrustLevel.high, distance := 0,
           id := root }]
        TrustLevel.high (seedTrustSet root distrusted) := rfl

/-- The loop facts instantiated for one run of
calculate_trust_set_internal. -/
theorem calculate_internal_facts (db : ProofDB) (root : Id)
    (params : TrustDistanceParams)
    (distrusted : List (Id × DistrustedIdDetails)) :
    distrusted.length ≤
      (db.calculate_trust_set_internal root params
        distrusted).distrusted.length ∧
    (rootOK root (db.calculate_trust_set_internal root params distrusted) ∨
      distrusted.length <
        (db.calculate_trust_set_internal root params
          distrusted).distrusted.length) ∧
    ((distrusted.map Prod.fst).Nodup →
      (distrustedKeys (db.calculate_trust_set_internal root params
        distrusted)).Nodup ∧
      ∀ k ∈ distrustedKeys (db.calculate_trust_set_internal root params
        distrusted), k ∈ distrusted.map Prod.fst ∨ k ∈ wotTargets db) := by
  rw [calculate_trust_set_internal_eq]
  have hroot : rootOK root (seedTrustSet root distrusted) :=
    ⟨seedDetails root, by simp [seedTrustSet, lookupA], rfl, rfl⟩
  have hl := trust_set_loop_facts db params distrusted.length root
    (wotPhi db params root (seedTrustSet root distrusted) + 2)
    [{ effective_trust_level := TrustLevel.high, distance := 0, id := root }]
    TrustLevel.high (seedTrustSet root distrusted)
  exact ⟨hl.1, hl.2.1 (Or.inl hroot) (le_refl _), fun hn => hl.2.2 hn⟩

theorem distrusted_length_le_targets (db : ProofDB)
    (dl : List (Id × DistrustedIdDetails))
    (hnd : (dl.map Prod.fst).Nodup)
    (hsub : ∀ k ∈ dl.map Prod.fst, k ∈ wotTargets db) :
    dl.length ≤ (wotTargets db).dedup.length := by
  have h1 : dl.length = (dl.map Prod.fst).length :=
    (List.length_map _ _).symm
  rw [h1]
  calc (dl.map Prod.fst).length = (dl.map Prod.fst).toFinset.card :=
        (List.toFinset_card_of_nodup hnd).symm
    _ ≤ (wotTargets db).toFinset.card := by
        apply Finset.card_le_card
        intro x hx
        rw [List.mem_toFinset] at hx ⊢
        exact hsub x hx
    _ = (wotTargets db).dedup.length := List.card_toFinset _

/-- With enough restarts budgeted, the outer loop returns a trust set in
which the root is trusted at High@0. -/
theorem rootOK_outer (db : ProofDB) (root : Id)
    (params : TrustDistanceParams) :
    ∀ (fuel : Nat) (distrusted : List (Id × DistrustedIdDetails)),
      (distrusted.map Prod.fst).Nodup →
      (∀ k ∈ distrusted.map Prod.fst, k ∈ wotTargets db) →
      (wotTargets db).dedup.length < fuel + distrusted.length →
      rootOK root (trust_set_outer db root params fuel distrusted) := by
  intro fuel
  induction fuel with
  | zero =>
    intro dl hnd hsub hbound
    have := distrusted_length_le_targets db dl hnd hsub
    omega
  | succ fuel ih =>
    intro dl hnd hsub hbound
    simp only [trust_set_outer]
    have hint := calculate_internal_facts db root params dl
    by_cases hret : (db.calculate_trust_set_internal root params
        dl).distrusted.length ≤ dl.length
    · rw [if_pos hret]
      rcases hint.2.1 with hok | hlt
      · exact hok
      · omega
    · rw [if_neg hret]
      obtain ⟨hnd2, hsub2⟩ := hint.2.2 hnd
      refine ih _ hnd2 (fun k hk => ?_) ?_
      · rcases hsub2 k hk with hi | hi
        · exact hsub k hi
        · exact hi
      · have hlen := hint.1
        omega

/-- Claim C1: for every root and TrustDistanceParams and every proof
database (including ones where some node holds a Distrust edge toward the
root), the returned TrustSet contains the root in its trusted map with
effective trust level High and distance 0. -/
theorem trust_set_contains_root (db : ProofDB) (root : Id)
    (params : TrustDistanceParams) :
    (db.calculate_trust_set root params).is_trusted root = true ∧
    ∃ d, lookupA (db.calculate_trust_set root params).trusted root = some d ∧
      d.distance = 0 ∧ d.effective_trust_level = TrustLevel.high := by
  have h := rootOK_outer db root params
    ((wotTargets db).dedup.length + 1) [] (by simp) (by simp) (by omega)
  obtain ⟨d, hd, h0, hh⟩ := h
  constructor
  · unfold ProofDB.calculate_trust_set
    simp [TrustSet.is_trusted, hd]
  · exact ⟨d, hd, h0, hh⟩

/-- Witness for C10 at a concrete store already holding the pair (1, 0). -/
theorem unique_trust_proof_count_spec_witness :
    ((buildTrustDB [opC10]).add_trust trustProofC10
        FetchSource.localUser).unique_trust_proof_count =
      (buildTrustDB [opC10]).unique_trust_proof_count :=
  unique_trust_proof_count_spec.2.2 (buildTrustDB [opC10]) trustProofC10
    FetchSource.localUser (by decide)


/-! ### Claim C2: record-level lemmas -/

theorem rbPot_le_six (rb : List (Id × TrustLevel)) (b : Id) :
    rbPot rb b ≤ 6 := by
  unfold rbPot
  cases h : lookupA rb b <;> simp <;> omega

/-- Entry facts of record_trusted_id: the stored entry for the subject only
improves, strictly when the change flag is set. -/
theorem record_trusted_facts (ts : TrustSet) (s rb : Id) (dist : Nat)
    (lvl : TrustLevel) :
    ∃ newE,
      lookupA (ts.record_trusted_id s rb dist lvl).2.trusted s = some newE ∧
      ((lookupA ts.trusted s = Option.none ∧
          newE = { distance := dist,
                   effective_trust_level := lvl,
                   reported_by := [(rb, lvl)] } ∧
          (ts.record_trusted_id s rb dist lvl).1 = true) ∨
       (∃ d, lookupA ts.trusted s = some d ∧
          newE.distance ≤ d.distance ∧
          d.effective_trust_level.toNat ≤ newE.effective_trust_level.toNat ∧
          (∀ b, rbPot newE.reported_by b ≤ rbPot d.reported_by b) ∧
          ((ts.record_trusted_id s rb dist lvl).1 = true →
            newE.distance < d.distance ∨
            d.effective_trust_level.toNat <
              newE.effective_trust_level.toNat ∨
            rbPot newE.reported_by rb < rbPot d.reported_by rb))) := by
  unfold TrustSet.record_trusted_id
  cases hl : lookupA ts.trusted s with
  | none =>
    exact ⟨_, lookupA_setA_self _ _ _, Or.inl ⟨rfl, rfl, rfl⟩⟩
  | some d =>
    refine ⟨_, lookupA_setA_self _ _ _, Or.inr ⟨d, rfl, ?_, ?_, ?_, ?_⟩⟩
    · by_cases hc1 : d.distance > dist <;> simp [hc1] <;> omega
    · by_cases hc2 : d.effective_trust_level < lvl <;> simp [hc2]
      exact Nat.le_of_lt hc2
    · intro b
      cases h3 : lookupA d.reported_by rb with
      | none =>
        simp only [h3]
        by_cases hb : b = rb
        · subst hb
          unfold rbPot
          rw [lookupA_setA_self, h3]
          show 5 - lvl.toNat ≤ 6
          omega
        · unfold rbPot
          rw [lookupA_setA_other _ _ _ _ hb]
      | some lv =>
        simp only [h3]
        by_cases hlt : lv < lvl
        · simp only [if_pos hlt]
          by_cases hb : b = rb
          · subst hb
            unfold rbPot
            rw [lookupA_setA_self, h3]
            show 5 - lvl.toNat ≤ 5 - lv.toNat
            have h1 : lv.toNat < lvl.toNat := hlt
            omega
          · unfold rbPot
            rw [lookupA_setA_other _ _ _ _ hb]
        · simp [hlt]
    · intro hch
      by_cases hc1 : d.distance > dist
      · left
        simp only [if_pos hc1]
        omega
      · by_cases hc2 : d.effective_trust_level < lvl
        · right
          left
          simp only [if_pos hc2]
          exact hc2
        · cases h3 : lookupA d.reported_by rb with
          | none =>
            right
            right
            simp only [h3]
            unfold rbPot
            rw [lookupA_setA_self, h3]
            show 5 - lvl.toNat < 6
            have := toNat_le_four lvl
            omega
          | some lv =>
            by_cases hlt : lv < lvl
            · right
              right
              simp only [h3, if_pos hlt]
              unfold rbPot
              rw [lookupA_setA_self, h3]
              show 5 - lvl.toNat < 5 - lv.toNat
              have h1 : lv.toNat < lvl.toNat := hlt
              have := toNat_le_four lvl
              omega
            · simp [hc1, hc2, hlt, h3] at hch

theorem popMin_eq_none (pending : List Visit)
    (h : popMin pending = Option.none) : pending = [] := by
  cases pending with
  | nil => rfl
  | cons v vs => simp [popMin] at h

theorem foldl_min_mem (vs : List Visit) (acc : Visit) :
    vs.foldl (fun best w => if visitLe w best then w else best) acc = acc ∨
      vs.foldl (fun best w => if visitLe w best then w else best) acc ∈ vs := by
  induction vs generalizing acc with
  | nil => exact Or.inl rfl
  | cons w ws ih =>
    simp only [List.foldl_cons]
    rcases ih (if visitLe w acc then w else acc) with h | h
    · rw [h]
      by_cases hw : visitLe w acc = true
      · simp only [if_pos hw]
        exact Or.inr (List.mem_cons_self _ _)
      · simp [if_neg hw]
    · exact Or.inr (List.mem_cons_of_mem _ h)

theorem popMin_some_facts (pending : List Visit) (cur : Visit)
    (rest : List Visit) (h : popMin pending = some (cur, rest)) :
    cur ∈ pending ∧ rest = pending.erase cur := by
  cases pending with
  | nil => simp [popMin] at h
  | cons v vs =>
    simp only [popMin, Option.some_inj, Prod.mk.injEq] at h
    obtain ⟨h1, h2⟩ := h
    constructor
    · rcases foldl_min_mem vs v with hm | hm
      · rw [← h1, hm]
        exact List.mem_cons_self _ _
      · rw [← h1]
        exact List.mem_cons_of_mem _ hm
    · rw [← h1, ← h2]

theorem mem_wotUniverse (db : ProofDB) (root z : Id) :
    z ∈ wotUniverse db root ↔ z = root ∨ z ∈ wotTargets db := by
  unfold wotUniverse
  rw [List.mem_dedup, List.mem_cons]


/-! ### Claim C2: the termination measure -/

theorem entryPot_le_of_components (U : List Id) (e1 e2 : TrustedIdDetails)
    (h1 : e1.distance ≤ e2.distance)
    (h2 : e2.effective_trust_level.toNat ≤ e1.effective_trust_level.toNat)
    (h3 : ∀ b, rbPot e1.reported_by b ≤ rbPot e2.reported_by b) :
    entryPot U e1 ≤ entryPot U e2 := by
  unfold entryPot
  have hs := sum_map_le_sum_map U (rbPot e1.reported_by)
    (rbPot e2.reported_by) (fun b _ => h3 b)
  have hl1 := toNat_le_four e1.effective_trust_level
  have hl2 := toNat_le_four e2.effective_trust_level
  omega

theorem entryPot_lt_of_strict (U : List Id) (e1 e2 : TrustedIdDetails)
    (h1 : e1.distance ≤ e2.distance)
    (h2 : e2.effective_trust_level.toNat ≤ e1.effective_trust_level.toNat)
    (h3 : ∀ b, rbPot e1.reported_by b ≤ rbPot e2.reported_by b)
    (hstrict : e1.distance < e2.distance ∨
      e2.effective_trust_level.toNat < e1.effective_trust_level.toNat ∨
      ∃ b ∈ U, rbPot e1.reported_by b < rbPot e2.reported_by b) :
    entryPot U e1 < entryPot U e2 := by
  unfold entryPot
  have hs := sum_map_le_sum_map U (rbPot e1.reported_by)
    (rbPot e2.reported_by) (fun b _ => h3 b)
  have hl1 := toNat_le_four e1.effective_trust_level
  have hl2 := toNat_le_four e2.effective_trust_level
  rcases hstrict with hst | hst | ⟨b, hb, hst⟩
  · omega
  · omega
  · have hlt := sum_map_lt_sum_map U (rbPot e1.reported_by)
      (rbPot e2.reported_by) (fun b _ => h3 b) b hb hst
    omega

theorem entryPot_le_bound (params : TrustDistanceParams) (U : List Id)
    (e : TrustedIdDetails) (h : e.distance ≤ params.max_distance) :
    entryPot U e ≤ params.max_distance + 5 + 6 * U.length := by
  unfold entryPot
  have hs := sum_map_le_const U (rbPot e.reported_by) 6
    (fun b _ => rbPot_le_six _ b)
  have := toNat_le_four e.effective_trust_level
  omega

theorem idPot_congr (params : TrustDistanceParams) (U : List Id)
    (ts ts' : TrustSet) (z : Id)
    (ht : lookupA ts'.trusted z = lookupA ts.trusted z)
    (hd : lookupA ts'.distrusted z = lookupA ts.distrusted z) :
    idPot params U ts' z = idPot params U ts z := by
  unfold idPot TrustSet.is_distrusted
  rw [ht, hd]

theorem idPot_eq_potMax (params : TrustDistanceParams) (U : List Id)
    (ts : TrustSet) (z : Id) (hd : lookupA ts.distrusted z = Option.none)
    (ht : lookupA ts.trusted z = Option.none) :
    idPot params U ts z = potMax params U := by
  unfold idPot TrustSet.is_distrusted
  rw [hd, ht]
  rfl

theorem idPot_eq_entryPot (params : TrustDistanceParams) (U : List Id)
    (ts : TrustSet) (z : Id) (E : TrustedIdDetails)
    (hd : lookupA ts.distrusted z = Option.none)
    (ht : lookupA ts.trusted z = some E) :
    idPot params U ts z = entryPot U E := by
  unfold idPot TrustSet.is_distrusted
  rw [hd, ht]
  rfl

theorem idPot_eq_zero (params : TrustDistanceParams) (U : List Id)
    (ts : TrustSet) (z : Id)
    (hd : (lookupA ts.distrusted z).isSome = true) :
    idPot params U ts z = 0 := by
  unfold idPot TrustSet.is_distrusted
  rw [hd]
  rfl

/-- One edge step never increases the measure Phi + pending-size, and keeps
all trusted distances within the budget. -/
theorem process_edge_measure (db : ProofDB) (root : Id)
    (params : TrustDistanceParams) (current : Visit)
    (st : TrustSet × List Visit) (e : TrustLevel × Id)
    (hcur : current.id ∈ wotUniverse db root)
    (he : e.2 ∈ wotTargets db)
    (hmax : distMaxInv params st.1) :
    wotPhi db params root (trust_set_process_edge params current st e).1 +
        (trust_set_process_edge params current st e).2.length ≤
      wotPhi db params root st.1 + st.2.length ∧
    distMaxInv params (trust_set_process_edge params current st e).1 := by
  rcases process_edge_cases params current st e with
    ⟨heq, _⟩ | ⟨hnone, _, heq⟩ | ⟨dist, hnone, hdist, _, heq⟩
  · rw [heq]
    exact ⟨le_refl _, hmax⟩
  · have h1 : (trust_set_process_edge params current st e).1 =
        (st.1.record_distrusted_id e.2 current.id).2 := by rw [heq]
    have h2 : (trust_set_process_edge params current st e).2 = st.2 := by
      rw [heq]
    rw [h1, h2]
    constructor
    · have hpt : ∀ z ∈ wotUniverse db root,
          idPot params (wotUniverse db root)
            (st.1.record_distrusted_id e.2 current.id).2 z ≤
          idPot params (wotUniverse db root) st.1 z := by
        intro z _
        by_cases hz : z = e.2
        · have hds : (lookupA
              (st.1.record_distrusted_id e.2 current.id).2.distrusted
              e.2).isSome = true := by
            simp only [TrustSet.record_distrusted_id]
            rw [lookupA_upsertA_self]
            rfl
          rw [hz, idPot_eq_zero params _ _ _ hds]
          exact Nat.zero_le _
        · have ht : lookupA
              (st.1.record_distrusted_id e.2 current.id).2.trusted z =
              lookupA st.1.trusted z := by
            simp only [TrustSet.record_distrusted_id]
            exact lookupA_eraseA_other _ _ _ hz
          have hd : lookupA
              (st.1.record_distrusted_id e.2 current.id).2.distrusted z =
              lookupA st.1.distrusted z := by
            simp only [TrustSet.record_distrusted_id]
            exact lookupA_upsertA_other _ _ _ _ _ hz
          rw [idPot_congr params _ _ _ _ ht hd]
      have hps := sum_map_le_sum_map (wotUniverse db root)
        (idPot params (wotUniverse db root)
          (st.1.record_distrusted_id e.2 current.id).2)
        (idPot params (wotUniverse db root) st.1) hpt
      unfold wotPhi
      omega
    · intro z E hz
      by_cases hze : z = e.2
      · rw [hze] at hz
        simp only [TrustSet.record_distrusted_id] at hz
        rw [lookupA_eraseA_self] at hz
        cases hz
      · simp only [TrustSet.record_distrusted_id] at hz
        rw [lookupA_eraseA_other _ _ _ hze] at hz
        exact hmax z E hz
  · obtain ⟨newE, hnew, hcase⟩ := record_trusted_facts st.1 e.2 current.id
      dist (tlMin e.1 current.effective_trust_level)
    have hdise : lookupA st.1.distrusted e.2 = Option.none :=
      is_distrusted_eq_false _ _ hnone
    have hdis : (st.1.record_trusted_id e.2 current.id dist
        (tlMin e.1 current.effective_trust_level)).2.distrusted =
        st.1.distrusted := record_trusted_distrusted _ _ _ _ _
    have hd2 : lookupA (st.1.record_trusted_id e.2 current.id dist
        (tlMin e.1 current.effective_trust_level)).2.distrusted e.2 =
        Option.none := by
      rw [hdis]
      exact hdise
    have hmax2 : distMaxInv params (st.1.record_trusted_id e.2 current.id
        dist (tlMin e.1 current.effective_trust_level)).2 := by
      intro z E hz
      by_cases hze : z = e.2
      · rw [hze] at hz
        rw [hnew] at hz
        cases hz
        rcases hcase with ⟨_, hE, _⟩ | ⟨d, hd, hled, _, _⟩
        · rw [hE]
          exact hdist
        · exact le_trans hled (hmax _ _ hd)
      · rw [record_trusted_trusted_other _ _ _ _ _ _ hze] at hz
        exact hmax z E hz
    have hother : ∀ z, z ≠ e.2 →
        idPot params (wotUniverse db root)
          (st.1.record_trusted_id e.2 current.id dist
            (tlMin e.1 current.effective_trust_level)).2 z =
        idPot params (wotUniverse db root) st.1 z := by
      intro z hz
      exact idPot_congr params _ _ _ _
        (record_trusted_trusted_other _ _ _ _ _ _ hz) (by rw [hdis])
    have hselfle : idPot params (wotUniverse db root)
        (st.1.record_trusted_id e.2 current.id dist
          (tlMin e.1 current.effective_trust_level)).2 e.2 ≤
        idPot params (wotUniverse db root) st.1 e.2 := by
      rw [idPot_eq_entryPot params _ _ _ newE hd2 hnew]
      rcases hcase with ⟨hvac, hE, _⟩ | ⟨d, hd, hled, hlvl, hrb, _⟩
      · rw [idPot_eq_potMax params _ _ _ hdise hvac]
        have hnd : newE.distance ≤ params.max_distance := by
          rw [hE]
          exact hdist
        have hb := entryPot_le_bound params (wotUniverse db root) newE hnd
        unfold potMax
        omega
      · rw [idPot_eq_entryPot params _ _ _ d hdise hd]
        exact entryPot_le_of_components _ _ _ hled hlvl hrb
    refine ⟨?_, ?_⟩
    · have h1 : (trust_set_process_edge params current st e).1 =
          (st.1.record_trusted_id e.2 current.id dist
            (tlMin e.1 current.effective_trust_level)).2 := by rw [heq]
      have h2 : (trust_set_process_edge params current st e).2 =
          (if (st.1.record_trusted_id e.2 current.id dist
              (tlMin e.1 current.effective_trust_level)).1
           then insertOnce
             { effective_trust_level :=
                 tlMin e.1 current.effective_trust_level,
               distance := dist, id := e.2 } st.2
           else st.2) := by rw [heq]
      rw [h1, h2]
      by_cases hr : (st.1.record_trusted_id e.2 current.id dist
          (tlMin e.1 current.effective_trust_level)).1 = true
      · have hselflt : idPot params (wotUniverse db root)
            (st.1.record_trusted_id e.2 current.id dist
              (tlMin e.1 current.effective_trust_level)).2 e.2 <
            idPot params (wotUniverse db root) st.1 e.2 := by
          rw [idPot_eq_entryPot params _ _ _ newE hd2 hnew]
          rcases hcase with ⟨hvac, hE, _⟩ | ⟨d, hd, hled, hlvl, hrb, hstr⟩
          · rw [idPot_eq_potMax params _ _ _ hdise hvac]
            have hnd : newE.distance ≤ params.max_distance := by
              rw [hE]
              exact hdist
            have hb := entryPot_le_bound params (wotUniverse db root) newE hnd
            unfold potMax
            omega
          · rw [idPot_eq_entryPot params _ _ _ d hdise hd]
            refine entryPot_lt_of_strict _ _ _ hled hlvl hrb ?_
            rcases hstr hr with hs | hs | hs
            · exact Or.inl hs
            · exact Or.inr (Or.inl hs)
            · exact Or.inr (Or.inr ⟨current.id, hcur, hs⟩)
        have hlt := sum_map_lt_sum_map (wotUniverse db root)
          (idPot params (wotUniverse db root)
            (st.1.record_trusted_id e.2 current.id dist
              (tlMin e.1 current.effective_trust_level)).2)
          (idPot params (wotUniverse db root) st.1)
          (fun z _ => by
            by_cases hz : z = e.2
            · rw [hz]
              exact le_of_lt hselflt
            · rw [hother z hz])
          e.2 ((mem_wotUniverse db root e.2).mpr (Or.inr he)) hselflt
        have hpl : (insertOnce
            { effective_trust_level :=
                tlMin e.1 current.effective_trust_level,
              distance := dist, id := e.2 } st.2).length ≤
            st.2.length + 1 := by
          rw [insertOnce_length]
          split <;> omega
        rw [if_pos hr]
        unfold wotPhi
        omega
      · have hple := sum_map_le_sum_map (wotUniverse db root)
          (idPot params (wotUniverse db root)
            (st.1.record_trusted_id e.2 current.id dist
              (tlMin e.1 current.effective_trust_level)).2)
          (idPot params (wotUniverse db root) st.1)
          (fun z _ => by
            by_cases hz : z = e.2
            · rw [hz]
              exact hselfle
            · rw [hother z hz])
        rw [if_neg hr]
        unfold wotPhi
        omega
    · have h1 : (trust_set_process_edge params current st e).1 =
          (st.1.record_trusted_id e.2 current.id dist
            (tlMin e.1 current.effective_trust_level)).2 := by rw [heq]
      rw [h1]
      exact hmax2


/-! ### Claim C2: distrust precedence -/

/-- One edge step preserves the distrust/trust exclusion invariant, only
grows the pending frontier and the distrusted map, and records the target
of a distrust edge. -/
theorem process_edge_c2 (root : Id) (params : TrustDistanceParams)
    (current : Visit) (st : TrustSet × List Visit) (e : TrustLevel × Id)
    (hj : jInv root st.1) :
    jInv root (trust_set_process_edge params current st e).1 ∧
    (∀ v ∈ st.2, v ∈ (trust_set_process_edge params current st e).2) ∧
    (∀ w, (lookupA st.1.distrusted w).isSome = true →
      (lookupA (trust_set_process_edge params current st
        e).1.distrusted w).isSome = true) ∧
    (∀ z, (lookupA (trust_set_process_edge params current st
        e).1.trusted z).isSome = true →
      (lookupA st.1.trusted z).isSome = true ∨
      ∃ v ∈ (trust_set_process_edge params current st e).2, v.id = z) ∧
    (∀ v ∈ (trust_set_process_edge params current st e).2,
      v ∈ st.2 ∨ v.id = e.2) ∧
    (e.1 = TrustLevel.distrust →
      (lookupA (trust_set_process_edge params current st
        e).1.distrusted e.2).isSome = true) ∧
    st.1.distrusted.length ≤
      (trust_set_process_edge params current st e).1.distrusted.length := by
  rcases process_edge_cases params current st e with
    ⟨heq, himp⟩ | ⟨hnone, _, heq⟩ | ⟨dist, hnone, hdist, hne, heq⟩
  · rw [heq]
    exact ⟨hj, fun v hv => hv, fun w hw => hw, fun z hz => Or.inl hz,
      fun v hv => Or.inl hv, fun hd => himp hd, le_refl _⟩
  · have h1 : (trust_set_process_edge params current st e).1 =
        (st.1.record_distrusted_id e.2 current.id).2 := by rw [heq]
    have h2 : (trust_set_process_edge params current st e).2 = st.2 := by
      rw [heq]
    rw [h1, h2]
    refine ⟨?_, fun v hv => hv, ?_, ?_, fun v hv => Or.inl hv, ?_, ?_⟩
    · intro z hzr hds
      simp only [TrustSet.record_distrusted_id] at hds ⊢
      by_cases hze : z = e.2
      · rw [hze]
        exact lookupA_eraseA_self _ _
      · rw [lookupA_upsertA_other _ _ _ _ _ hze] at hds
        rw [lookupA_eraseA_other _ _ _ hze]
        exact hj z hzr hds
    · intro w hw
      simp only [TrustSet.record_distrusted_id]
      by_cases hwe : w = e.2
      · rw [hwe, lookupA_upsertA_self]
        rfl
      · rw [lookupA_upsertA_other _ _ _ _ _ hwe]
        exact hw
    · intro z hz
      simp only [TrustSet.record_distrusted_id] at hz
      by_cases hze : z = e.2
      · rw [hze, lookupA_eraseA_self] at hz
        simp at hz
      · rw [lookupA_eraseA_other _ _ _ hze] at hz
        exact Or.inl hz
    · intro _
      simp only [TrustSet.record_distrusted_id]
      rw [lookupA_upsertA_self]
      rfl
    · simp only [TrustSet.record_distrusted_id]
      rw [upsertA_length, is_distrusted_eq_false _ _ hnone]
      simp
  · obtain ⟨newE, hnew, hcase⟩ := record_trusted_facts st.1 e.2 current.id
      dist (tlMin e.1 current.effective_trust_level)
    have hdise := is_distrusted_eq_false _ _ hnone
    have hdis : (st.1.record_trusted_id e.2 current.id dist
        (tlMin e.1 current.effective_trust_level)).2.distrusted =
        st.1.distrusted := record_trusted_distrusted _ _ _ _ _
    have h1 : (trust_set_process_edge params current st e).1 =
        (st.1.record_trusted_id e.2 current.id dist
          (tlMin e.1 current.effective_trust_level)).2 := by rw [heq]
    have h2 : (trust_set_process_edge params current st e).2 =
        (if (st.1.record_trusted_id e.2 current.id dist
            (tlMin e.1 current.effective_trust_level)).1
         then insertOnce
           { effective_trust_level :=
               tlMin e.1 current.effective_trust_level,
             distance := dist, id := e.2 } st.2
         else st.2) := by rw [heq]
    rw [h1, h2]
    refine ⟨?_, ?_, ?_, ?_, ?_, ?_, ?_⟩
    · intro z hzr hds
      rw [hdis] at hds
      by_cases hze : z = e.2
      · rw [hze, hdise] at hds
        simp at hds
      · rw [record_trusted_trusted_other _ _ _ _ _ _ hze]
        exact hj z hzr hds
    · intro v hv
      by_cases hr : (st.1.record_trusted_id e.2 current.id dist
          (tlMin e.1 current.effective_trust_level)).1 = true
      · rw [if_pos hr]
        exact (mem_insertOnce _ _ _).mpr (Or.inr hv)
      · rw [if_neg hr]
        exact hv
    · intro w hw
      rw [hdis]
      exact hw
    · intro z hz
      by_cases hze : z = e.2
      · rcases hcase with ⟨hvac, hE, hch⟩ | ⟨d, hd, _⟩
        · right
          refine ⟨{ effective_trust_level := tlMin e.1 current.effective_trust_level, distance := dist, id := e.2 }, ?_, ?_⟩
          · rw [if_pos hch]
            exact (mem_insertOnce _ _ _).mpr (Or.inl rfl)
          · rw [hze]
        · rw [hze, hd]
          exact Or.inl rfl
      · rw [record_trusted_trusted_other _ _ _ _ _ _ hze] at hz
        exact Or.inl hz
    · intro v hv
      by_cases hr : (st.1.record_trusted_id e.2 current.id dist
          (tlMin e.1 current.effective_trust_level)).1 = true
      · rw [if_pos hr] at hv
        rcases (mem_insertOnce _ _ _).mp hv with hv1 | hv1
        · right
          rw [hv1]
        · exact Or.inl hv1
      · rw [if_neg hr] at hv
        exact Or.inl hv
    · intro hd
      exact absurd hd hne
    · rw [hdis]

/-- The per-edge C2 facts folded over a list of edges. -/
theorem process_fold_c2 (db : ProofDB) (root : Id)
    (params : TrustDistanceParams) (current : Visit)
    (hcur : current.id ∈ wotUniverse db root) :
    ∀ (edges : List (TrustLevel × Id)) (st : TrustSet × List Visit),
    (∀ e ∈ edges, e.2 ∈ wotTargets db) →
    jInv root st.1 → distMaxInv params st.1 →
    jInv root (edges.foldl (trust_set_process_edge params current) st).1 ∧
    distMaxInv params
      (edges.foldl (trust_set_process_edge params current) st).1 ∧
    (∀ v ∈ st.2,
      v ∈ (edges.foldl (trust_set_process_edge params current) st).2) ∧
    (∀ w, (lookupA st.1.distrusted w).isSome = true →
      (lookupA (edges.foldl (trust_set_process_edge params current)
        st).1.distrusted w).isSome = true) ∧
    (∀ z, (lookupA (edges.foldl (trust_set_process_edge params current)
        st).1.trusted z).isSome = true →
      (lookupA st.1.trusted z).isSome = true ∨
      ∃ v ∈ (edges.foldl (trust_set_process_edge params current) st).2,
        v.id = z) ∧
    (∀ v ∈ (edges.foldl (trust_set_process_edge params current) st).2,
      v ∈ st.2 ∨ v.id ∈ wotTargets db) ∧
    (∀ e ∈ edges, e.1 = TrustLevel.distrust →
      (lookupA (edges.foldl (trust_set_process_edge params current)
        st).1.distrusted e.2).isSome = true) ∧
    wotPhi db params root
        (edges.foldl (trust_set_process_edge params current) st).1 +
      (edges.foldl (trust_set_process_edge params current) st).2.length ≤
      wotPhi db params root st.1 + st.2.length ∧
    st.1.distrusted.length ≤
      (edges.foldl (trust_set_process_edge params current)
        st).1.distrusted.length := by
  intro edges
  induction edges with
  | nil =>
    intro st _ hj hmax
    exact ⟨hj, hmax, fun v hv => hv, fun w hw => hw, fun z hz => Or.inl hz,
      fun v hv => Or.inl hv, fun e he => absurd he (List.not_mem_nil e),
      le_refl _, le_refl _⟩
  | cons e rest ih =>
    intro st hE hj hmax
    have hee : e.2 ∈ wotTargets db := hE e (List.mem_cons_self _ _)
    have hrest : ∀ x ∈ rest, x.2 ∈ wotTargets db :=
      fun x hx => hE x (List.mem_cons_of_mem _ hx)
    have hm := process_edge_measure db root params current st e hcur hee hmax
    obtain ⟨hj1, hE1, hD1, hT1, hP1, hS1, hlen1⟩ :=
      process_edge_c2 root params current st e hj
    obtain ⟨hj2, hmax2, hE2, hD2, hT2, hP2, hS2, hm2, hlen2⟩ :=
      ih (trust_set_process_edge params current st e) hrest hj1 hm.2
    simp only [List.foldl_cons]
    refine ⟨hj2, hmax2, ?_, ?_, ?_, ?_, ?_, ?_, ?_⟩
    · exact fun v hv => hE2 v (hE1 v hv)
    · exact fun w hw => hD2 w (hD1 w hw)
    · intro z hz
      rcases hT2 z hz with hz1 | hz1
      · rcases hT1 z hz1 with hz0 | ⟨v, hv, hvid⟩
        · exact Or.inl hz0
        · exact Or.inr ⟨v, hE2 v hv, hvid⟩
      · exact Or.inr hz1
    · intro v hv
      rcases hP2 v hv with hv1 | hv1
      · rcases hP1 v hv1 with hv0 | hv0
        · exact Or.inl hv0
        · right
          rw [hv0]
          exact hee
      · exact Or.inr hv1
    · intro x hx hd
      rcases List.mem_cons.mp hx with hx1 | hx1
      · rw [hx1] at hd ⊢
        exact hD2 _ (hS1 hd)
      · exact hS2 x hx1 hd
    · exact le_trans hm2 hm.1
    · exact le_trans hlen1 hlen2

/-- The traversal loop: when it terminates without the restart break (the
distrusted set did not grow), the result satisfies the distrust/trust
exclusion invariant and every trusted Id has had all of its outgoing
Distrust edges recorded. -/
theorem trust_set_loop_c2 (db : ProofDB) (params : TrustDistanceParams)
    (initLen : Nat) (root : Id) :
    ∀ (fuel : Nat) (pending : List Visit) (prev : TrustLevel)
      (ts : TrustSet),
    jInv root ts → pInv db ts pending → distMaxInv params ts →
    (∀ v ∈ pending, v.id ∈ wotUniverse db root) →
    wotPhi db params root ts + pending.length < fuel →
    initLen ≤ ts.distrusted.length →
    ((trust_set_loop db params initLen fuel pending prev
        ts).distrusted.length = initLen →
      jInv root (trust_set_loop db params initLen fuel pending prev ts) ∧
      processedAll db
        (trust_set_loop db params initLen fuel pending prev ts)) := by
  intro fuel
  induction fuel with
  | zero =>
    intro pending prev ts _ _ _ _ hfuel _
    omega
  | succ fuel ih =>
    intro pending prev ts hj hp hmax hpend hfuel hinit
    cases hpop : popMin pending with
    | none =>
      rw [trust_set_loop_pop_none db params initLen fuel pending prev ts hpop]
      intro _
      refine ⟨hj, ?_⟩
      intro z hz e' he' hd'
      rcases hp z hz with ⟨v, hv, _⟩ | hproc
      · rw [popMin_eq_none pending hpop] at hv
        cases hv
      · exact hproc e' he' hd'
    | some cr =>
      obtain ⟨cur, rest⟩ := cr
      rw [trust_set_loop_pop_some db params initLen fuel pending prev ts
        cur rest hpop]
      by_cases hbr : cur.effective_trust_level ≠ prev ∧
          initLen ≠ ts.distrusted.length
      · rw [if_pos hbr]
        intro hlen
        exact absurd hlen (Ne.symm hbr.2)
      · rw [if_neg hbr]
        obtain ⟨hcurm, hrest⟩ := popMin_some_facts pending cur rest hpop
        have hcuru : cur.id ∈ wotUniverse db root := hpend cur hcurm
        have hfold := process_fold_c2 db root params cur hcuru
          (db.get_trust_list_of_id cur.id) (ts, rest)
          (fun e he => edge_target_mem db cur.id e he) hj hmax
        obtain ⟨hj1, hmax1, hE1, hD1, hT1, hP1, hS1, hm1, hlen1⟩ := hfold
        unfold trust_set_process_node
        have hrsub : ∀ v ∈ rest, v ∈ pending := by
          intro v hv
          rw [hrest] at hv
          exact List.mem_of_mem_erase hv
        have hp1 : pInv db
            ((db.get_trust_list_of_id cur.id).foldl
              (trust_set_process_edge params cur) (ts, rest)).1
            ((db.get_trust_list_of_id cur.id).foldl
              (trust_set_process_edge params cur) (ts, rest)).2 := by
          intro z hz
          rcases hT1 z hz with hold | hnewv
          · rcases hp z hold with ⟨v, hv, hvid⟩ | hproc
            · by_cases hvc : v = cur
              · right
                intro e' he' hd'
                have hz2 : z = cur.id := by
                  rw [← hvid, hvc]
                rw [hz2] at he'
                exact hS1 e' he' hd'
              · left
                refine ⟨v, hE1 v ?_, hvid⟩
                rw [hrest]
                exact (List.mem_erase_of_ne hvc).mpr hv
            · right
              intro e' he' hd'
              exact hD1 _ (hproc e' he' hd')
          · exact Or.inl hnewv
        have hpend1 : ∀ v ∈ ((db.get_trust_list_of_id cur.id).foldl
            (trust_set_process_edge params cur) (ts, rest)).2,
            v.id ∈ wotUniverse db root := by
          intro v hv
          rcases hP1 v hv with hv1 | hv1
          · exact hpend v (hrsub v hv1)
          · exact (mem_wotUniverse db root v.id).mpr (Or.inr hv1)
        have hrl : rest.length + 1 = pending.length := by
          rw [hrest]
          have h1 := List.length_erase_of_mem hcurm
          have h2 := List.length_pos_of_mem hcurm
          omega
        have hfuel1 : wotPhi db params root
            ((db.get_trust_list_of_id cur.id).foldl
              (trust_set_process_edge params cur) (ts, rest)).1 +
            ((db.get_trust_list_of_id cur.id).foldl
              (trust_set_process_edge params cur) (ts, rest)).2.length <
            fuel := by
          have hm1' : wotPhi db params root
              ((db.get_trust_list_of_id cur.id).foldl
                (trust_set_process_edge params cur) (ts, rest)).1 +
              ((db.get_trust_list_of_id cur.id).foldl
                (trust_set_process_edge params cur) (ts, rest)).2.length ≤
              wotPhi db params root ts + rest.length := hm1
          omega
        exact ih ((db.get_trust_list_of_id cur.id).foldl
            (trust_set_process_edge params cur) (ts, rest)).2
          (if cur.effective_trust_level = prev
            then cur.effective_trust_level else prev)
          ((db.get_trust_list_of_id cur.id).foldl
            (trust_set_process_edge params cur) (ts, rest)).1
          hj1 hp1 hmax1 hpend1 hfuel1 (le_trans hinit hlen1)

/-- One run of calculate_trust_set_internal whose distrusted set did not
grow satisfies the exclusion invariant and has processed every outgoing
Distrust edge of every trusted Id. -/
theorem calculate_internal_c2 (db : ProofDB) (root : Id)
    (params : TrustDistanceParams)
    (dl : List (Id × DistrustedIdDetails))
    (hlen : (db.calculate_trust_set_internal root params
        dl).distrusted.length = dl.length) :
    jInv root (db.calculate_trust_set_internal root params dl) ∧
    processedAll db (db.calculate_trust_set_internal root params dl) := by
  rw [calculate_trust_set_internal_eq] at hlen ⊢
  have hj0 : jInv root (seedTrustSet root dl) := by
    intro z hz _
    show lookupA [(root, seedDetails root)] z = Option.none
    simp only [lookupA]
    rw [if_neg (fun h => hz h.symm)]
  have hp0 : pInv db (seedTrustSet root dl)
      [{ effective_trust_level := TrustLevel.high, distance := 0,
         id := root }] := by
    intro z hz
    by_cases hrz : root = z
    · left
      refine ⟨{ effective_trust_level := TrustLevel.high, distance := 0, id := root }, List.mem_singleton.mpr rfl, hrz⟩
    · exact absurd hz (by
        show ¬ (lookupA [(root, seedDetails root)] z).isSome = true
        simp only [lookupA]
        rw [if_neg hrz]
        simp)
  have hmax0 : distMaxInv params (seedTrustSet root dl) := by
    intro z E hz
    by_cases hrz : root = z
    · have hz' : lookupA [(root, seedDetails root)] z = some E := hz
      simp only [lookupA] at hz'
      rw [if_pos hrz] at hz'
      cases hz'
      exact Nat.zero_le _
    · have hz' : lookupA [(root, seedDetails root)] z = some E := hz
      simp only [lookupA] at hz'
      rw [if_neg hrz] at hz'
      cases hz'
  have hpend0 : ∀ v ∈ [({ effective_trust_level := TrustLevel.high, distance := 0, id := root } : Visit)],
      v.id ∈ wotUniverse db root := by
    intro v hv
    rw [List.mem_singleton] at hv
    rw [hv]
    exact (mem_wotUniverse db root root).mpr (Or.inl rfl)
  have hfuel : wotPhi db params root (seedTrustSet root dl) +
      ([({ effective_trust_level := TrustLevel.high, distance := 0, id := root } : Visit)]).length <
      wotPhi db params root (seedTrustSet root dl) + 2 := by
    simp only [List.length_singleton]
    omega
  exact trust_set_loop_c2 db params dl.length root
    (wotPhi db params root (seedTrustSet root dl) + 2)
    [{ effective_trust_level := TrustLevel.high, distance := 0, id := root }]
    TrustLevel.high (seedTrustSet root dl)
    hj0 hp0 hmax0 hpend0 hfuel (le_refl _) hlen

/-- With enough restarts budgeted, the outer loop returns a trust set
satisfying the exclusion invariant in which every trusted Id has had all of
its outgoing Distrust edges recorded. -/
theorem trust_set_outer_c2 (db : ProofDB) (root : Id)
    (params : TrustDistanceParams) :
    ∀ (fuel : Nat) (distrusted : List (Id × DistrustedIdDetails)),
      (distrusted.map Prod.fst).Nodup →
      (∀ k ∈ distrusted.map Prod.fst, k ∈ wotTargets db) →
      (wotTargets db).dedup.length < fuel + distrusted.length →
      jInv root (trust_set_outer db root params fuel distrusted) ∧
      processedAll db (trust_set_outer db root params fuel distrusted) := by
  intro fuel
  induction fuel with
  | zero =>
    intro dl hnd hsub hbound
    have := distrusted_length_le_targets db dl hnd hsub
    omega
  | succ fuel ih =>
    intro dl hnd hsub hbound
    simp only [trust_set_outer]
    have hint := calculate_internal_facts db root params dl
    by_cases hret : (db.calculate_trust_set_internal root params
        dl).distrusted.length ≤ dl.length
    · rw [if_pos hret]
      exact calculate_internal_c2 db root params dl
        (Nat.le_antisymm hret hint.1)
    · rw [if_neg hret]
      obtain ⟨hnd2, hsub2⟩ := hint.2.2 hnd
      refine ih _ hnd2 (fun k hk => ?_) ?_
      · rcases hsub2 k hk with hi | hi
        · exact hsub k hi
        · exact hi
      · have hlen := hint.1
        omega

theorem effective_ge_low_isSome (ts : TrustSet) (x : Id)
    (hx : TrustLevel.low ≤ ts.get_effective_trust_level x) :
    (lookupA ts.trusted x).isSome = true := by
  unfold TrustSet.get_effective_trust_level
    TrustSet.get_effective_trust_level_opt at hx
  cases hl : lookupA ts.trusted x with
  | some d => rfl
  | none =>
    rw [hl] at hx
    cases hld : lookupA ts.distrusted x with
    | some dd =>
      rw [hld] at hx
      simp only [Option.getD_some] at hx
      exact absurd hx (by decide)
    | none =>
      rw [hld] at hx
      simp only [Option.getD_none] at hx
      exact absurd hx (by decide)

/-- Claim C2: in the TrustSet returned by calculate_trust_set, if a node x
with effective trust level at least Low holds a Distrust edge toward a node
y other than the root, then y is absent from the trusted map.  The claim is
stated over an arbitrary ProofDB, so it holds regardless of the order in
which the proofs were ingested. -/
theorem distrust_precedence (db : ProofDB) (root : Id)
    (params : TrustDistanceParams) (x y : Id)
    (hx : TrustLevel.low ≤
      (db.calculate_trust_set root params).get_effective_trust_level x)
    (hedge : (TrustLevel.distrust, y) ∈ db.get_trust_list_of_id x)
    (hy : y ≠ root) :
    lookupA (db.calculate_trust_set root params).trusted y = Option.none ∧
    (db.calculate_trust_set root params).is_trusted y = false := by
  obtain ⟨hjf, hprocf⟩ := trust_set_outer_c2 db root params
    ((wotTargets db).dedup.length + 1) [] (by simp) (by simp) (by omega)
  have hxt : (lookupA (db.calculate_trust_set root params).trusted
      x).isSome = true := effective_ge_low_isSome _ _ hx
  have hdy : (lookupA (db.calculate_trust_set root params).distrusted
      y).isSome = true := hprocf x hxt (TrustLevel.distrust, y) hedge rfl
  have hty : lookupA (db.calculate_trust_set root params).trusted y =
      Option.none := hjf y hy hdy
  refine ⟨hty, ?_⟩
  unfold TrustSet.is_trusted
  rw [hty]
  rfl

/-- Witness for C2 on scenario S2 (A -High-> B, A -High-> C,
B -Distrust-> C, root A): B has effective level High >= Low, B distrusts C,
and C ends up outside the trusted map. -/
theorem distrust_precedence_witness :
    TrustLevel.low ≤ (dbS2.calculate_trust_set 0
        TrustDistanceParams.default_params).get_effective_trust_level 1 ∧
    (TrustLevel.distrust, 2) ∈ dbS2.get_trust_list_of_id 1 ∧
    (2 : Id) ≠ 0 ∧
    lookupA (dbS2.calculate_trust_set 0
        TrustDistanceParams.default_params).trusted 2 = Option.none ∧
    (dbS2.calculate_trust_set 0
        TrustDistanceParams.default_params).is_trusted 2 = false := by
  refine ⟨by decide, by decide, by decide, ?_⟩
  exact distrust_precedence dbS2 0 TrustDistanceParams.default_params 1 2
    (by decide) (by decide) (by decide)


end CrevWot
